import Mathlib

/-
Verification of the Lô Tô (Vietnamese bingo) game engine.

This file gives a shallow embedding, in Lean 4, of the game logic of the
repository: the number caller, the constrained ticket-grid generator, the
winner validators, ticket marking, room joining and ticket creation, and the
session-update logic around winners.  Randomness in the source (Math.random
driven index picks and shuffles) is made explicit: every random decision is a
parameter of the embedded function, either a stream of natural numbers (index
choices) or a shuffle function assumed only to permute its input.  Theorems
about "all executions" quantify over these parameters; concrete executions
instantiate them.

Source files embedded here (paths refer to the repository):
  src/lib/redis.ts        - generateNextNumber, generateUniqueGrid,
                            generateTicket, validateNumbers, validateTicket
  src/services/game.service.ts - GameService.spinNumber, checkAutoWinner
  src/services/room.service.ts - RoomService.joinRoom
  server.js               - in-memory variants: generateGrid, generateTicket,
                            validateNumbers, the room:join, player:mark-number,
                            player:call-kinh and player:create-tickets handlers
  TicketService           - createTickets, markNumber
-/

set_option maxHeartbeats 2000000

namespace GanhHatLoto

/-- Result record returned by the validators (game-types.ts, ValidationResult). -/
structure ValidationResult where
  isValid : Bool
  isWinner : Bool
  matchedNumbers : List Nat
  missingNumbers : List Nat
deriving Repr, DecidableEq

/-- One ticket row (game-types.ts, TicketRow): 9 cells, none meaning the cell is
empty, and a parallel marked-flags array. -/
structure TicketRow where
  cells : List (Option Nat)
  marked : List Bool
deriving Repr, DecidableEq

/-- One 3-by-9 grid (game-types.ts, TicketGrid).  The source type is a 3-tuple of
rows; we model it as a list which the generator always builds with length 3. -/
structure TicketGrid where
  rows : List TicketRow
deriving Repr, DecidableEq

/-- A ticket (game-types.ts, LotoTicket).  The string identity fields (id,
ownerId, roomCode, createdAt) play no role in the verified logic and are
carried separately where needed. -/
structure LotoTicket where
  grids : List TicketGrid
deriving Repr, DecidableEq

/-- The non-empty cells of a row, in cell order (the rows cells filter used
throughout the source). -/
def rowNums (row : TicketRow) : List Nat := row.cells.filterMap id

/-! ## Winner validators (redis.ts validateNumbers / validateTicket,
server.js validateNumbers and the player:call-kinh handler) -/

/-- redis.ts validateNumbers (identical to the server.js copy): partition the
input into called and not-yet-called numbers; a winner is 5 matches out of
exactly 5 numbers. -/
def validateNumbers (numbers calledNumbers : List Nat) : ValidationResult :=
  let matched := numbers.filter (fun n => calledNumbers.contains n)
  let missing := numbers.filter (fun n => !(calledNumbers.contains n))
  { isValid := true
    isWinner := matched.length == 5 && numbers.length == 5
    matchedNumbers := matched
    missingNumbers := missing }

/-- All rows of a ticket in grid-major, row-minor order (the scan order of
validateTicket and checkAutoWinner). -/
def allRows (t : LotoTicket) : List TicketRow := t.grids.flatMap (fun g => g.rows)

/-- The no-claim branch of redis.ts validateTicket: scan all rows of all grids
and return the first winning result, else an empty non-winning result. -/
def scanAllRows (t : LotoTicket) (called : List Nat) : ValidationResult :=
  match (allRows t).find? (fun row => (validateNumbers (rowNums row) called).isWinner) with
  | some row => validateNumbers (rowNums row) called
  | none => { isValid := true, isWinner := false, matchedNumbers := [], missingNumbers := [] }

/-- redis.ts validateTicket.  When a grid and a row are claimed and in bounds
(the source checks 0 <= claimedGrid < grids.length and 0 <= claimedRow < 3;
the lower bounds are automatic for Nat), only that row is validated; otherwise
the scan-all branch runs. -/
def validateTicket (t : LotoTicket) (called : List Nat)
    (claimedGrid claimedRow : Option Nat) : ValidationResult :=
  match claimedGrid, claimedRow with
  | some g, some r =>
    if g < t.grids.length ∧ r < 3 then
      validateNumbers (rowNums (((t.grids.getD g ⟨[]⟩).rows).getD r ⟨[], []⟩)) called
    else scanAllRows t called
  | _, _ => scanAllRows t called

/-- The validation computed by the server.js player:call-kinh handler: indices
are checked for existence (grids[grid] and grids[grid].rows[row]); a bad index
yields the invalid result; otherwise the claimed row alone is validated, with
isWinner := matched.length === 5. -/
def callKinhResult (t : LotoTicket) (called : List Nat) (g r : Nat) : ValidationResult :=
  if g < t.grids.length ∧ r < (t.grids.getD g ⟨[]⟩).rows.length then
    let row := (t.grids.getD g ⟨[]⟩).rows.getD r ⟨[], []⟩
    let matched := (rowNums row).filter (fun n => called.contains n)
    let missing := (rowNums row).filter (fun n => !(called.contains n))
    { isValid := true
      isWinner := matched.length == 5
      matchedNumbers := matched
      missingNumbers := missing }
  else { isValid := false, isWinner := false, matchedNumbers := [], missingNumbers := [] }

/-! ## Number caller (redis.ts generateNextNumber, game.service.ts spinNumber) -/

/-- The available-numbers loop: all i in [lo, hi] not yet called, ascending. -/
def availableNumbers (called : List Nat) (lo hi : Nat) : List Nat :=
  (List.range' lo (hi + 1 - lo)).filter (fun i => !(called.contains i))

/-- redis.ts generateNextNumber: draw from the complement of called within
[1, 90].  The Math.random index pick is the explicit parameter r, reduced
modulo the number of available numbers. -/
def generateNextNumber (called : List Nat) (r : Nat) : Option Nat :=
  let available := availableNumbers called 1 90
  if available.isEmpty then none
  else some (available.getD (r % available.length) 0)

/-- A called-number entry (number plus call timestamp). -/
structure CalledNumber where
  number : Nat
  calledAt : Nat
deriving Repr, DecidableEq

/-- Winner record stored on a session.  The call-kinh path records a grid
index; checkAutoWinner records only the row index, so the grid is optional. -/
structure WinnerRec where
  ownerId : Nat
  ticketId : Nat
  grid : Option Nat
  row : Nat
deriving Repr, DecidableEq

/-- A game session (models, GameSession): called-number history, optional
winner, optional end time. -/
structure GameSession where
  calledNumbers : List CalledNumber
  winner : Option WinnerRec
  endedAt : Option Nat
deriving Repr, DecidableEq

/-- The numbers already called in a session. -/
def calledOf (s : GameSession) : List Nat := s.calledNumbers.map (fun c => c.number)

/-- game.service.ts GameService.spinNumber.  The DB query selects a session
with no endedAt, so an ended session yields null; the loop collects available
numbers over 1..89 (the source comment fixes the range at 1-89), picks one at
the random index r, appends it to the history. -/
def spinNumber (s : GameSession) (r now : Nat) : Option (Nat × GameSession) :=
  if s.endedAt.isSome then none
  else
    let available := availableNumbers (calledOf s) 1 89
    if available.isEmpty then none
    else
      let n := available.getD (r % available.length) 0
      some (n, { s with calledNumbers := s.calledNumbers ++ [⟨n, now⟩] })

/-- Iterated drawing with generateNextNumber: one draw per random choice,
stopping if the pool is exhausted; returns the accumulated called list. -/
def iterateDraws (rs : List Nat) (called : List Nat) : List Nat :=
  match rs with
  | [] => called
  | r :: rest =>
    match generateNextNumber called r with
    | none => called
    | some n => iterateDraws rest (called ++ [n])

/-- Iterated spinning with spinNumber, starting from a session. -/
def iterateSpins (rs : List Nat) (s : GameSession) : GameSession :=
  match rs with
  | [] => s
  | r :: rest =>
    match spinNumber s r 0 with
    | none => s
    | some p => iterateSpins rest p.2

/-! ## Winner detection on the session (game.service.ts checkAutoWinner,
server.js player:call-kinh winner branch) -/

/-- checkRowWinner (redis.ts) / the inline row check of checkAutoWinner: every
non-null cell of the row has been called. -/
def isRowWinner (row : TicketRow) (called : List Nat) : Bool :=
  (rowNums row).all (fun n => called.contains n)

/-- The first winning row index of a grid (checkAutoWinner scans rowIndex 0,1,2
within a grid). -/
def gridWinningRow (g : TicketGrid) (called : List Nat) : Option Nat :=
  (List.range g.rows.length).find? (fun i => isRowWinner (g.rows.getD i ⟨[], []⟩) called)

/-- The first winning row index of a ticket, scanning grids in order; as in the
source, only the row index is reported. -/
def ticketWinningRow (t : LotoTicket) (called : List Nat) : Option Nat :=
  t.grids.findSome? (fun g => gridWinningRow g called)

/-- Stored ticket record: id, owner id and the ticket itself. -/
structure TicketRec where
  ticketId : Nat
  ownerId : Nat
  ticket : LotoTicket
deriving Repr, DecidableEq

/-- The winner checkAutoWinner finds: the first ticket (in store order) with a
fully-called row. -/
def findAutoWinner (tickets : List TicketRec) (called : List Nat) : Option WinnerRec :=
  tickets.findSome? (fun tr =>
    (ticketWinningRow tr.ticket called).map
      (fun r => { ownerId := tr.ownerId, ticketId := tr.ticketId, grid := none, row := r }))

/-- game.service.ts GameService.checkAutoWinner, as a transformer of the active
session: when a winner is found, the session update (findOneAndUpdate with
filter endedAt null) records the winner AND sets endedAt to the current time;
only a still-active session is updated.  Returns the winner it reports. -/
def checkAutoWinner (tickets : List TicketRec) (called : List Nat)
    (s : GameSession) (now : Nat) : Option WinnerRec × GameSession :=
  match findAutoWinner tickets called with
  | some w =>
    (some w, if s.endedAt = none then { s with winner := some w, endedAt := some now } else s)
  | none => (none, s)

/-- The session mutation of the server.js player:call-kinh handler: the claimed
row is validated with callKinhResult; on a win the winner record (with grid
index) is stored on the current session; endedAt is never touched. -/
def callKinhUpdate (s : GameSession) (t : LotoTicket) (ownerId ticketId g r : Nat) :
    ValidationResult × GameSession :=
  let res := callKinhResult t (calledOf s) g r
  if res.isWinner then
    (res, { s with winner := some { ownerId := ownerId, ticketId := ticketId, grid := some g, row := r } })
  else (res, s)

/-! ## Ticket marking (server.js player:mark-number handler,
TicketService.markNumber) -/

/-- server.js player:mark-number: all of grid, row, col are bounds-checked
(grid < grids.length, row < 3, col < 9); the marked flag is toggled only when
the addressed cell holds a number. -/
def markNumber (t : LotoTicket) (g r c : Nat) : LotoTicket :=
  if g < t.grids.length ∧ r < 3 ∧ c < 9 then
    let grid := t.grids.getD g ⟨[]⟩
    let row := grid.rows.getD r ⟨[], []⟩
    if (row.cells.getD c none).isSome then
      ⟨t.grids.set g ⟨grid.rows.set r ⟨row.cells, row.marked.set c (!(row.marked.getD c false))⟩⟩⟩
    else t
  else t

/-- TicketService.markNumber (per retry attempt): the source checks that
grids[grid] and grids[grid].rows[row] exist, then tests cells[col] !== null
(a col beyond the row yields undefined, which is not null in JS, hence
cells.get? c = some none is the only non-toggling cell value); the toggle
reads marked[col] (undefined, i.e. out of range, negates to true, matching
getD false). -/
def serviceMarkNumber (t : LotoTicket) (g r c : Nat) : LotoTicket :=
  if g < t.grids.length ∧ r < (t.grids.getD g ⟨[]⟩).rows.length then
    let grid := t.grids.getD g ⟨[]⟩
    let row := grid.rows.getD r ⟨[], []⟩
    if row.cells.get? c ≠ some none then
      ⟨t.grids.set g ⟨grid.rows.set r ⟨row.cells, row.marked.set c (!(row.marked.getD c false))⟩⟩⟩
    else t
  else t

/-! ## Rooms and joining (room.service.ts RoomService.joinRoom, server.js
room:create and room:join handlers) -/

/-- Room status (game-types.ts): waiting, playing or finished. -/
inductive RoomStatus where
  | waiting
  | playing
  | finished
deriving Repr, DecidableEq

/-- A player on the roster; identity and host flag. -/
structure Player where
  oderId : Nat
  isHost : Bool
deriving Repr, DecidableEq

/-- Room settings used by the embedded operations. -/
structure RoomSettings where
  maxPlayers : Nat
  ticketsPerPlayer : Nat
deriving Repr, DecidableEq

/-- A room: host id, ordered roster, settings, status. -/
structure Room where
  hostId : Nat
  players : List Player
  settings : RoomSettings
  status : RoomStatus
deriving Repr, DecidableEq

/-- Room creation (server.js room:create / RoomService.createRoom): the host is
put on the roster, status waiting. -/
def createRoom (hostId : Nat) (settings : RoomSettings) : Room :=
  { hostId := hostId
    players := [{ oderId := hostId, isHost := true }]
    settings := settings
    status := RoomStatus.waiting }

/-- Outcome reported to the join caller. -/
inductive JoinOutcome where
  | roomNotFound
  | roomFull
  | joined
deriving Repr, DecidableEq

/-- room:join (server.js) / RoomService.joinRoom: a missing room fails with
RoomNotFound; a room whose player count is at least settings.maxPlayers fails
with RoomFull and is left unchanged; otherwise the player is appended.
RoomService counts player documents of the room, server.js reads
room.players.length; on a consistent store both equal the roster length. -/
def joinRoom (room? : Option Room) (p : Player) : Option Room × JoinOutcome :=
  match room? with
  | none => (none, JoinOutcome.roomNotFound)
  | some room =>
    if room.players.length ≥ room.settings.maxPlayers then (some room, JoinOutcome.roomFull)
    else (some { room with players := room.players ++ [p] }, JoinOutcome.joined)

/-- Join applied to a room in hand (drops the not-found case). -/
def joinRoomState (room : Room) (p : Player) : Room :=
  ((joinRoom (some room) p).1).getD room

/-! ## Ticket creation (TicketService.createTickets, server.js
player:create-tickets handler) -/

/-- TicketService.createTickets allowance: Math.max(0, maxPerPlayer -
existingCount), computed over integers as in the source. -/
def allowedTickets (cap owned : Nat) : Nat :=
  (max 0 ((cap : Int) - (owned : Int))).toNat

/-- TicketService.createTickets: the requested count is clamped to
min(count, allowed); that many tickets are generated (the generator is the
explicit parameter gen), persisted next to the existing ones, and only the new
tickets are returned (first component). -/
def createTickets (count cap : Nat) (existing : List LotoTicket)
    (gen : Nat → LotoTicket) : List LotoTicket × List LotoTicket :=
  let actual := min count (allowedTickets cap existing.length)
  let newTickets := (List.range actual).map gen
  (newTickets, existing ++ newTickets)

/-- server.js player:create-tickets: the loop bound is
Math.min(count, room.settings.ticketsPerPlayer); the tickets the player already
owns are not consulted. -/
def serverCreateTickets (count cap : Nat) (existing : List LotoTicket)
    (gen : Nat → LotoTicket) : List LotoTicket × List LotoTicket :=
  let newTickets := (List.range (min count cap)).map gen
  (newTickets, existing ++ newTickets)

/-! ## Ticket-grid generator (redis.ts generateUniqueGrid / generateTicket,
server.js generateGrid / generateTicket)

Randomness is explicit: the column-count bumping loop consumes a stream of
column choices; the shuffles (Array.sort with a random comparator) are
parameters assumed only to permute their input; the per-attempt shuffles of
the row-distribution loop come as a list, one entry per attempt, truncated to
the 100-attempt bound of the source. -/

/-- The per-column number bands (colRanges in both sources): col 0 holds 1-9,
cols 1-7 the matching decades, col 8 holds 80-90. -/
def colRanges : List (Nat × Nat) :=
  [(1, 9), (10, 19), (20, 29), (30, 39), (40, 49), (50, 59), (60, 69), (70, 79), (80, 90)]

/-- All numbers of column c's band, ascending. -/
def bandList (c : Nat) : List Nat :=
  let p := colRanges.getD c (0, 0)
  List.range' p.1 (p.2 + 1 - p.1)

/-- The column-count loop of step 1: starting from one number per column,
randomly bump columns (capped at 3) until six bumps landed.  Each stream
element is a column choice (reduced mod 9, the support of the source's
Math.floor(Math.random()*9)); a choice hitting a full column is skipped, as in
the source.  An exhausted stream models the (probability-zero under fair
randomness) divergence of the source loop and yields none. -/
def bumpCounts : List Nat → Nat → List Nat → Option (List Nat)
  | counts, 0, _ => some counts
  | _, _ + 1, [] => none
  | counts, remaining + 1, choice :: rest =>
    let c := choice % 9
    if counts.getD c 0 < 3 then bumpCounts (counts.set c (counts.getD c 0 + 1)) remaining rest
    else bumpCounts counts (remaining + 1) rest

/-- Collect an optional result per column, failing if any column fails
(the per-column loop of step 2). -/
def collectCols (f : Nat → Option (List Nat)) : List Nat → Option (List (List Nat))
  | [] => some []
  | c :: rest =>
    match f c, collectCols f rest with
    | some nums, some tail => some (nums :: tail)
    | _, _ => none

/-- Step 2 of generateUniqueGrid for one column: the band minus the excluded
numbers; fail if fewer than count remain; otherwise take count of them from the
shuffled list and sort ascending. -/
def pickOneColUnique (exclude : List Nat) (colShuf : Nat → List Nat → List Nat)
    (counts : List Nat) (c : Nat) : Option (List Nat) :=
  let count := counts.getD c 0
  let available := (bandList c).filter (fun n => !(exclude.contains n))
  if available.length < count then none
  else some (List.insertionSort (fun a b => a ≤ b) ((colShuf c available).take count))

/-- Step 2 of server.js generateGrid for one column: rejection sampling -
draw random numbers in the band, skip duplicates, until count are collected.
The stream of draws is explicit; an exhausted stream (divergence) is none. -/
def sampleNums (lo hi count : Nat) : List Nat → List Nat → Option (List Nat)
  | picks, acc =>
    if acc.length ≥ count then some acc
    else
      match picks with
      | [] => none
      | p :: rest =>
        let n := lo + p % (hi + 1 - lo)
        if acc.contains n then sampleNums lo hi count rest acc
        else sampleNums lo hi count rest (acc ++ [n])

/-- The sampled numbers of one server.js column, sorted ascending. -/
def pickOneColSample (picks : Nat → List Nat) (counts : List Nat) (c : Nat) :
    Option (List Nat) :=
  let count := counts.getD c 0
  let p := colRanges.getD c (0, 0)
  match sampleNums p.1 p.2 count (picks c) [] with
  | none => none
  | some nums => some (List.insertionSort (fun a b => a ≤ b) nums)

/-- Increment one row's fill counter (rowFillCounts[r]++). -/
def bumpFill (fills : List Nat) (r : Nat) : List Nat :=
  fills.set r (fills.getD r 0 + 1)

/-- The column processing order of step 3: column indices sorted by count,
descending (the source's sort((a, b) => colCounts[b] - colCounts[a])). -/
def colsOrder (counts : List Nat) : List Nat :=
  List.insertionSort (fun a b => counts.getD b 0 ≤ counts.getD a 0) (List.range 9)

/-- One pass of the row-distribution attempt: process the columns in order; for
each, the rows still below 5 are available; fail the attempt if fewer are
available than the column needs; otherwise pick count of them from the
shuffled available rows, record the assignment and bump the fills. -/
def assignRowsGo (counts : List Nat) (shuf : Nat → List Nat → List Nat) :
    List Nat → List (List Nat) → List Nat → Option (List (List Nat) × List Nat)
  | [], asgn, fills => some (asgn, fills)
  | c :: order, asgn, fills =>
    let count := counts.getD c 0
    let availRows := [0, 1, 2].filter (fun r => fills.getD r 0 < 5)
    if availRows.length < count then none
    else
      let picked := (shuf c availRows).take count
      assignRowsGo counts shuf order (asgn.set c picked) (picked.foldl bumpFill fills)

/-- One full row-distribution attempt, including the final 5/5/5 check. -/
def tryAttempt (counts : List Nat) (shuf : Nat → List Nat → List Nat) :
    Option (List (List Nat)) :=
  match assignRowsGo counts shuf (colsOrder counts) (List.replicate 9 []) [0, 0, 0] with
  | none => none
  | some (asgn, fills) => if fills.all (fun x => x == 5) then some asgn else none

/-- The attempt loop of step 3: run attempts until one succeeds; the caller
truncates the attempt randomness to the 100-attempt bound. -/
def rowDistribute (counts : List Nat) : List (Nat → List Nat → List Nat) → Option (List (List Nat))
  | [] => none
  | shuf :: rest =>
    match tryAttempt counts shuf with
    | some asgn => some asgn
    | none => rowDistribute counts rest

/-- Step 4, inner loop for one column: write the column's sorted numbers into
its assigned rows (both ascending), cell by cell. -/
def placeCol : List (List (Option Nat)) → Nat → List Nat → List Nat → List (List (Option Nat))
  | cells, _, [], _ => cells
  | cells, _, _ :: _, [] => cells
  | cells, c, r :: rs, n :: ns =>
    placeCol (cells.set r ((cells.getD r []).set c (some n))) c rs ns

/-- Step 4: starting from 3 rows of 9 empty cells, place every column. -/
def buildCells (asgn nums : List (List Nat)) : List (List (Option Nat)) :=
  (List.range 9).foldl
    (fun cells c =>
      placeCol cells c (List.insertionSort (fun a b => a ≤ b) (asgn.getD c [])) (nums.getD c []))
    (List.replicate 3 (List.replicate 9 none))

/-- Wrap the cell matrix as a TicketGrid with fresh marked arrays. -/
def buildGrid (asgn nums : List (List Nat)) : TicketGrid :=
  ⟨(buildCells asgn nums).map (fun cs => { cells := cs, marked := List.replicate 9 false })⟩

/-- The explicit randomness consumed by one generateUniqueGrid call. -/
structure GridRand where
  bumps : List Nat
  colShuf : Nat → List Nat → List Nat
  attempts : List (Nat → List Nat → List Nat)

/-- redis.ts generateUniqueGrid: counts, then numbers per column avoiding the
exclusions (null if a band is too small), then row distribution (null after 100
failed attempts), then the grid. -/
def generateUniqueGrid (exclude : List Nat) (rand : GridRand) : Option TicketGrid :=
  match bumpCounts (List.replicate 9 1) 6 rand.bumps with
  | none => none
  | some counts =>
    match collectCols (pickOneColUnique exclude rand.colShuf counts) (List.range 9) with
    | none => none
    | some nums =>
      match rowDistribute counts (rand.attempts.take 100) with
      | none => none
      | some asgn => some (buildGrid asgn nums)

/-- The numbers of a grid added to usedNumbers by generateTicket (the source
guards with JS truthiness, so a 0 would be skipped; generated numbers are all
at least 1). -/
def usedNumbersOf (g : TicketGrid) : List Nat :=
  g.rows.flatMap (fun row => (rowNums row).filter (fun n => n ≠ 0))

/-- All numbers placed on a ticket, grid-major, row-major. -/
def ticketNumbers (t : LotoTicket) : List Nat :=
  t.grids.flatMap (fun g => g.rows.flatMap rowNums)

/-- The loop of redis.ts generateTicket: while fewer than 3 grids and attempts
remain, generate a grid excluding every number already used; a successful grid
is appended and its numbers join the exclusions. -/
def generateTicketGo : List GridRand → List Nat → List TicketGrid → List TicketGrid
  | [], _, grids => grids
  | rand :: rest, exclude, grids =>
    if grids.length < 3 then
      match generateUniqueGrid exclude rand with
      | some g => generateTicketGo rest (exclude ++ usedNumbersOf g) (grids ++ [g])
      | none => generateTicketGo rest exclude grids
    else grids

/-- redis.ts generateTicket: up to 50 attempts, starting with no exclusions and
no grids; may return fewer than 3 grids when the budget is exhausted. -/
def generateTicket (rands : List GridRand) : LotoTicket :=
  ⟨generateTicketGo (rands.take 50) [] []⟩

/-- The explicit randomness of one server.js generateGrid attempt. -/
structure ServerGridRand where
  bumps : List Nat
  picks : Nat → List Nat
  attempts : List (Nat → List Nat → List Nat)

/-- One body execution of server.js generateGrid (no exclusions; rejection
sampling for the numbers; same row distribution). -/
def serverGenerateGridOnce (rand : ServerGridRand) : Option TicketGrid :=
  match bumpCounts (List.replicate 9 1) 6 rand.bumps with
  | none => none
  | some counts =>
    match collectCols (pickOneColSample rand.picks counts) (List.range 9) with
    | none => none
    | some nums =>
      match rowDistribute counts (rand.attempts.take 100) with
      | none => none
      | some asgn => some (buildGrid asgn nums)

/-- server.js generateGrid retries itself recursively on failure; each retry
consumes fresh randomness, so the recursion is driven by the rand list. -/
def serverGenerateGrid : List ServerGridRand → Option TicketGrid
  | [] => none
  | rand :: rest =>
    match serverGenerateGridOnce rand with
    | some g => some g
    | none => serverGenerateGrid rest

/-- server.js generateTicket: three independent generateGrid calls with no
cross-grid exclusion (the source comment explicitly skips global uniqueness). -/
def serverGenerateTicket (rands : List (List ServerGridRand)) : LotoTicket :=
  ⟨(rands.take 3).filterMap serverGenerateGrid⟩

/-! ## Observations on grids used by the specifications -/

/-- The final value the step-4 inner loop leaves in row r of column c: the
loop writes nums[k] into row rowIdxs[k] for each k, so with duplicate-free
rowIdxs the cell of row r gets the number paired with r, if any. -/
def lookupIdx : List Nat → List Nat → Nat → Option Nat
  | r0 :: rs, n0 :: ns, r => if r0 = r then some n0 else lookupIdx rs ns r
  | _, _, _ => none

/-- The cell of a cell matrix at row r, column c. -/
def cellAt (cells : List (List (Option Nat))) (r c : Nat) : Option Nat :=
  (cells.getD r []).getD c none

/-- The numbers of column c of a grid, top row first. -/
def colCells (g : TicketGrid) (c : Nat) : List Nat :=
  g.rows.filterMap (fun row => row.cells.getD c none)

/-- The structural invariants of a generated grid: 3 rows of 9 cells, 5
numbers per row, 15 in total, 1-3 numbers per column, strictly increasing
top-to-bottom within a column, every number inside its column's band. -/
def gridOK (g : TicketGrid) : Bool :=
  decide (g.rows.length = 3) &&
  g.rows.all (fun row => decide (row.cells.length = 9) && decide ((rowNums row).length = 5)) &&
  decide ((g.rows.flatMap rowNums).length = 15) &&
  (List.range 9).all (fun c =>
    decide (1 ≤ (colCells g c).length) && decide ((colCells g c).length ≤ 3) &&
    decide (List.Pairwise (fun a b => a < b) (colCells g c)) &&
    (colCells g c).all (fun n => decide (n ∈ bandList c)))

/-- The column-placement fold of buildCells, over an arbitrary column list
(buildCells is this fold over range 9 from the empty matrix). -/
def placeAll (asgn nums : List (List Nat)) (cs : List Nat)
    (cells : List (List (Option Nat))) : List (List (Option Nat)) :=
  cs.foldl
    (fun cl c => placeCol cl c
      (List.insertionSort (fun a b => a ≤ b) (asgn.getD c [])) (nums.getD c []))
    cells

/-! ## Concrete witness data -/

/-- The row addressed by a claim (grids[claimedGrid].rows[claimedRow]). -/
def claimedRowOf (t : LotoTicket) (g r : Nat) : TicketRow :=
  ((t.grids.getD g ⟨[]⟩).rows).getD r ⟨[], []⟩

/-- An empty 9-cell row. -/
def emptyRow : TicketRow :=
  ⟨List.replicate 9 none, List.replicate 9 false⟩

/-- A sample first row holding 1, 10, 20, 30, 40. -/
def sampleRow : TicketRow :=
  ⟨[some 1, some 10, some 20, some 30, some 40, none, none, none, none],
    List.replicate 9 false⟩

/-- A one-grid sample ticket whose first row is sampleRow. -/
def sampleTicket : LotoTicket := ⟨[⟨[sampleRow, emptyRow, emptyRow]⟩]⟩

/-- The identity shuffle: a permissible resolution of Array.sort with a random
comparator. -/
def idShuf : Nat → List Nat → List Nat := fun _ l => l

/-- A grid randomness making generateUniqueGrid succeed on an empty exclusion
set (counts 3,3,3,1,1,1,1,1,1; identity shuffles). -/
def sampleGridRand : GridRand :=
  { bumps := [0, 0, 1, 1, 2, 2], colShuf := idShuf, attempts := [idShuf] }

/-- A grid randomness whose row distribution fails under identity shuffles
(counts 2,2,2,2,2,2,1,1,1: the sixth 2-count column finds a single available
row), so generateUniqueGrid returns null. -/
def failGridRand : GridRand :=
  { bumps := [0, 1, 2, 3, 4, 5], colShuf := idShuf, attempts := [idShuf] }

/-- Server-grid randomness mirroring sampleGridRand, with the rejection
sampler fed ascending picks. -/
def sampleServerRand : ServerGridRand :=
  { bumps := [0, 0, 1, 1, 2, 2], picks := fun _ => [0, 1, 2], attempts := [idShuf] }

/-! ## List toolkit -/

/-- getD of set at the written index. -/
theorem getD_set_self {α : Type} (l : List α) (i : Nat) (a d : α) (h : i < l.length) :
    (l.set i a).getD i d = a := by
  rw [List.getD_eq_getElem?_getD, List.getElem?_set_self h]
  rfl

/-- getD of set at another index. -/
theorem getD_set_ne {α : Type} (l : List α) {i j : Nat} (hij : i ≠ j) (a d : α) :
    (l.set i a).getD j d = l.getD j d := by
  rw [List.getD_eq_getElem?_getD, List.getElem?_set_ne hij, ← List.getD_eq_getElem?_getD]

/-- Writing back the value read at an in-range index is the identity. -/
theorem set_getD_self {α : Type} (l : List α) (i : Nat) (d : α) (h : i < l.length) :
    l.set i (l.getD i d) = l := by
  apply List.ext_getElem?
  intro j
  by_cases hj : i = j
  · subst hj
    rw [List.getElem?_set_self h, List.getD_eq_getElem?_getD]
    cases hx : l[i]? with
    | none => exact absurd (List.getElem?_eq_some_iff.mpr ⟨h, rfl⟩) (by simp [hx])
    | some x => simp
  · exact List.getElem?_set_ne hj

/-- Setting the same index twice keeps only the second write. -/
theorem set_set {α : Type} (l : List α) (i : Nat) (a b : α) :
    (l.set i a).set i b = l.set i b := by
  apply List.ext_getElem?
  intro j
  by_cases hj : i = j
  · subst hj
    by_cases h : i < l.length
    · rw [List.getElem?_set_self (by simpa using h), List.getElem?_set_self h]
    · have h1 : l.length ≤ i := Nat.le_of_not_lt h
      rw [List.getElem?_eq_none (by simp [List.length_set]; omega),
        List.getElem?_eq_none (by simp [List.length_set]; omega)]
  · rw [List.getElem?_set_ne hj, List.getElem?_set_ne hj, List.getElem?_set_ne hj]

/-- Splitting a countP along a boolean test. -/
theorem countP_and_split {α : Type} (l : List α) (q p : α → Bool) :
    l.countP (fun a => q a && p a) + l.countP (fun a => q a && !(p a)) = l.countP q := by
  induction l with
  | nil => simp
  | cons x xs ih =>
    by_cases hq : q x
    · by_cases hp : p x <;> simp [List.countP_cons, hq, hp] <;> omega
    · simp [List.countP_cons, hq]
      omega

/-! ## C10: validateNumbers is a pure order-preserving partition -/

/-- C10: for every input list and called set, validateNumbers returns
isValid = true, its matchedNumbers and missingNumbers are order-preserving
sublists of the input that partition it (membership-wise and with
multiplicity: matched iff called, lengths and per-number counts add up), and
being a pure function it returns identical results on repeated calls. -/
theorem validateNumbers_partition (numbers called : List Nat) :
    (validateNumbers numbers called).isValid = true ∧
    List.Sublist (validateNumbers numbers called).matchedNumbers numbers ∧
    List.Sublist (validateNumbers numbers called).missingNumbers numbers ∧
    (validateNumbers numbers called).matchedNumbers.length +
      (validateNumbers numbers called).missingNumbers.length = numbers.length ∧
    (∀ n, (validateNumbers numbers called).matchedNumbers.count n +
      (validateNumbers numbers called).missingNumbers.count n = numbers.count n) ∧
    (∀ n, n ∈ (validateNumbers numbers called).matchedNumbers ↔ n ∈ numbers ∧ n ∈ called) ∧
    (∀ n, n ∈ (validateNumbers numbers called).missingNumbers ↔ n ∈ numbers ∧ n ∉ called) ∧
    validateNumbers numbers called = validateNumbers numbers called := by
  refine ⟨rfl, List.filter_sublist numbers, List.filter_sublist numbers, ?_, ?_, ?_, ?_, rfl⟩
  · show (numbers.filter _).length + (numbers.filter _).length = numbers.length
    rw [← List.countP_eq_length_filter, ← List.countP_eq_length_filter,
      List.length_eq_countP_add_countP (fun n => called.contains n) numbers]
    simp
  · intro n
    show (numbers.filter _).count n + (numbers.filter _).count n = numbers.count n
    rw [List.count_eq_countP, List.count_eq_countP, List.count_eq_countP,
      List.countP_filter, List.countP_filter]
    exact countP_and_split numbers (fun a => a == n) (fun a => called.contains a)
  · intro n
    show n ∈ numbers.filter _ ↔ _
    simp [List.mem_filter]
  · intro n
    show n ∈ numbers.filter _ ↔ _
    simp [List.mem_filter]

/-! ## C5: a claimed call validates only the claimed row -/

/-- C5: when a player calls a specific in-bounds grid and row holding 5
numbers, only that row is validated: the result equals validateNumbers on that
row's numbers, isWinner is true exactly when all 5 of its numbers are called
(in particular false when only 4 are called), matchedNumbers and
missingNumbers are that row's called and uncalled numbers, and the server.js
call-kinh handler computes the same verdict. -/
theorem validateTicket_claimed (t : LotoTicket) (called : List Nat) (g r : Nat)
    (hg : g < t.grids.length) (hr : r < 3)
    (h5 : (rowNums (claimedRowOf t g r)).length = 5) :
    validateTicket t called (some g) (some r) =
      validateNumbers (rowNums (claimedRowOf t g r)) called ∧
    ((validateTicket t called (some g) (some r)).isWinner = true ↔
      ∀ n ∈ rowNums (claimedRowOf t g r), n ∈ called) ∧
    (((rowNums (claimedRowOf t g r)).filter (fun n => called.contains n)).length = 4 →
      (validateTicket t called (some g) (some r)).isWinner = false) ∧
    (validateTicket t called (some g) (some r)).matchedNumbers =
      (rowNums (claimedRowOf t g r)).filter (fun n => called.contains n) ∧
    (validateTicket t called (some g) (some r)).missingNumbers =
      (rowNums (claimedRowOf t g r)).filter (fun n => !(called.contains n)) ∧
    (r < (t.grids.getD g ⟨[]⟩).rows.length →
      callKinhResult t called g r = validateTicket t called (some g) (some r)) := by
  have hvt : validateTicket t called (some g) (some r) =
      validateNumbers (rowNums (claimedRowOf t g r)) called := by
    simp [validateTicket, claimedRowOf, hg, hr]
  have hwin : (validateNumbers (rowNums (claimedRowOf t g r)) called).isWinner =
      (((rowNums (claimedRowOf t g r)).filter (fun n => called.contains n)).length == 5) := by
    simp [validateNumbers, h5]
  refine ⟨hvt, ?_, ?_, by rw [hvt]; rfl, by rw [hvt]; rfl, ?_⟩
  · rw [hvt, hwin]
    constructor
    · intro h n hn
      have hlen : ((rowNums (claimedRowOf t g r)).filter (fun n => called.contains n)).length = 5 := by
        simpa using h
      have h' : ((rowNums (claimedRowOf t g r)).filter (fun n => called.contains n)).length =
          (rowNums (claimedRowOf t g r)).length := by
        rw [hlen, h5]
      have := (List.filter_length_eq_length).mp h' n hn
      simpa using this
    · intro h
      have h' : ((rowNums (claimedRowOf t g r)).filter (fun n => called.contains n)).length =
          (rowNums (claimedRowOf t g r)).length :=
        List.filter_length_eq_length.mpr (fun a ha => by simpa using h a ha)
      rw [h', h5]
      rfl
  · intro h4
    rw [hvt, hwin, h4]
    rfl
  · intro hr2
    rw [hvt]
    have : callKinhResult t called g r =
        { isValid := true
          isWinner := (((rowNums (claimedRowOf t g r)).filter (fun n => called.contains n)).length == 5)
          matchedNumbers := (rowNums (claimedRowOf t g r)).filter (fun n => called.contains n)
          missingNumbers := (rowNums (claimedRowOf t g r)).filter (fun n => !(called.contains n)) } := by
      show (if g < t.grids.length ∧ r < (t.grids.getD g ⟨[]⟩).rows.length then _ else _) = _
      rw [if_pos ⟨hg, hr2⟩]
      rfl
    rw [this]
    simp [validateNumbers, hwin, h5]

/-- C5 witness: on the sample ticket with its full first row called, the claim
path reports a winner. -/
theorem validateTicket_claimed_witness :
    0 < sampleTicket.grids.length ∧ (0 : Nat) < 3 ∧
    (rowNums (claimedRowOf sampleTicket 0 0)).length = 5 ∧
    (validateTicket sampleTicket [1, 10, 20, 30, 40] (some 0) (some 0)).isWinner = true :=
  ⟨by decide, by decide, by decide,
    ((validateTicket_claimed sampleTicket [1, 10, 20, 30, 40] 0 0 (by decide) (by decide)
      (by decide)).2.1).mpr (by decide)⟩

/-! ## C6: markNumber is a guarded toggle with round-trip identity -/

/-- C6: for an in-range cell address, markNumber leaves the ticket unchanged
when the cell is empty, toggles the marked flag when the cell holds a number,
applying it twice returns the original ticket, and TicketService.markNumber
agrees with the server.js handler on in-range addresses. -/
theorem markNumber_toggle (t : LotoTicket) (g r c : Nat)
    (hg : g < t.grids.length) (hr3 : r < 3) (hc9 : c < 9)
    (hr : r < (t.grids.getD g ⟨[]⟩).rows.length)
    (hcm : c < (claimedRowOf t g r).marked.length)
    (hcc : c < (claimedRowOf t g r).cells.length) :
    ((claimedRowOf t g r).cells.getD c none = none → markNumber t g r c = t) ∧
    markNumber (markNumber t g r c) g r c = t ∧
    (((claimedRowOf t g r).cells.getD c none).isSome = true →
      (claimedRowOf (markNumber t g r c) g r).marked.getD c false =
        !((claimedRowOf t g r).marked.getD c false)) ∧
    serviceMarkNumber t g r c = markNumber t g r c := by
  have hrowdef : claimedRowOf t g r = (t.grids.getD g ⟨[]⟩).rows.getD r ⟨[], []⟩ := rfl
  by_cases hcell : ((claimedRowOf t g r).cells.getD c none).isSome = true
  · -- the addressed cell holds a number: the marked flag is toggled
    have ht1 : markNumber t g r c =
        ⟨t.grids.set g ⟨(t.grids.getD g ⟨[]⟩).rows.set r
          ⟨(claimedRowOf t g r).cells,
            (claimedRowOf t g r).marked.set c (!((claimedRowOf t g r).marked.getD c false))⟩⟩⟩ := by
      show (if g < t.grids.length ∧ r < 3 ∧ c < 9 then _ else _) = _
      rw [if_pos ⟨hg, hr3, hc9⟩]
      show (if ((claimedRowOf t g r).cells.getD c none).isSome = true then _ else _) = _
      rw [if_pos hcell]
      rfl
    have hg1 : g < (markNumber t g r c).grids.length := by
      rw [ht1]; simpa using hg
    have hgrid1 : (markNumber t g r c).grids.getD g ⟨[]⟩ =
        ⟨(t.grids.getD g ⟨[]⟩).rows.set r
          ⟨(claimedRowOf t g r).cells,
            (claimedRowOf t g r).marked.set c (!((claimedRowOf t g r).marked.getD c false))⟩⟩ := by
      rw [ht1]
      exact getD_set_self _ _ _ _ hg
    have hrow1 : claimedRowOf (markNumber t g r c) g r =
        ⟨(claimedRowOf t g r).cells,
          (claimedRowOf t g r).marked.set c (!((claimedRowOf t g r).marked.getD c false))⟩ := by
      show ((markNumber t g r c).grids.getD g ⟨[]⟩).rows.getD r ⟨[], []⟩ = _
      rw [hgrid1]
      exact getD_set_self _ _ _ _ hr
    refine ⟨?_, ?_, ?_, ?_⟩
    · intro hnone
      rw [hnone] at hcell
      simp at hcell
    · -- round trip: the second toggle restores the original flag array
      have ht2 : markNumber (markNumber t g r c) g r c =
          ⟨(markNumber t g r c).grids.set g ⟨((markNumber t g r c).grids.getD g ⟨[]⟩).rows.set r
            ⟨(claimedRowOf (markNumber t g r c) g r).cells,
              (claimedRowOf (markNumber t g r c) g r).marked.set c
                (!((claimedRowOf (markNumber t g r c) g r).marked.getD c false))⟩⟩⟩ := by
        show (if g < (markNumber t g r c).grids.length ∧ r < 3 ∧ c < 9 then _ else _) = _
        rw [if_pos ⟨hg1, hr3, hc9⟩]
        show (if ((claimedRowOf (markNumber t g r c) g r).cells.getD c none).isSome = true
            then _ else _) = _
        rw [if_pos (by rw [hrow1]; exact hcell)]
        rfl
      rw [ht2]
      rw [hrow1]
      have hmarked : ((claimedRowOf t g r).marked.set c
            (!((claimedRowOf t g r).marked.getD c false))).set c
          (!(((claimedRowOf t g r).marked.set c
            (!((claimedRowOf t g r).marked.getD c false))).getD c false)) =
          (claimedRowOf t g r).marked := by
        rw [getD_set_self _ _ _ _ hcm, Bool.not_not, set_set]
        exact set_getD_self _ _ _ hcm
      rw [hmarked]
      rw [hgrid1, ht1]
      dsimp only
      rw [List.set_set, List.set_set]
      have hrows : ((t.grids.getD g ⟨[]⟩).rows.set r
          ⟨(claimedRowOf t g r).cells, (claimedRowOf t g r).marked⟩) =
          (t.grids.getD g ⟨[]⟩).rows := by
        have : (⟨(claimedRowOf t g r).cells, (claimedRowOf t g r).marked⟩ : TicketRow) =
            (t.grids.getD g ⟨[]⟩).rows.getD r ⟨[], []⟩ := rfl
        rw [this]
        exact set_getD_self _ _ _ hr
      rw [hrows]
      have : (⟨(t.grids.getD g ⟨[]⟩).rows⟩ : TicketGrid) = t.grids.getD g ⟨[]⟩ := rfl
      rw [this]
      rw [set_getD_self _ _ _ hg]
    · intro _
      rw [hrow1]
      show ((claimedRowOf t g r).marked.set c (!((claimedRowOf t g r).marked.getD c false))).getD c false = _
      exact getD_set_self _ _ _ _ hcm
    · -- the service path takes the same branch and builds the same ticket
      have hsome : (claimedRowOf t g r).cells.get? c ≠ some none := by
        rw [List.get?_eq_getElem?]
        rw [List.getElem?_eq_getElem hcc]
        intro hx
        have : (claimedRowOf t g r).cells.getD c none = none := by
          rw [List.getD_eq_getElem?_getD, List.getElem?_eq_getElem hcc]
          simpa using hx
        rw [this] at hcell
        simp at hcell
      have hs : serviceMarkNumber t g r c =
          ⟨t.grids.set g ⟨(t.grids.getD g ⟨[]⟩).rows.set r
            ⟨(claimedRowOf t g r).cells,
              (claimedRowOf t g r).marked.set c (!((claimedRowOf t g r).marked.getD c false))⟩⟩⟩ := by
        show (if g < t.grids.length ∧ r < (t.grids.getD g ⟨[]⟩).rows.length then _ else _) = _
        rw [if_pos ⟨hg, hr⟩]
        show (if (claimedRowOf t g r).cells.get? c ≠ some none then _ else _) = _
        rw [if_pos hsome]
        rfl
      rw [hs, ht1]
  · -- the addressed cell is empty: both paths leave the ticket unchanged
    have hnone : (claimedRowOf t g r).cells.getD c none = none := by
      cases hx : (claimedRowOf t g r).cells.getD c none with
      | none => rfl
      | some v => rw [hx] at hcell; simp at hcell
    have hm : markNumber t g r c = t := by
      show (if g < t.grids.length ∧ r < 3 ∧ c < 9 then _ else _) = _
      rw [if_pos ⟨hg, hr3, hc9⟩]
      show (if ((claimedRowOf t g r).cells.getD c none).isSome = true then _ else _) = _
      rw [if_neg (by rw [hnone]; simp)]
    have hsvc : serviceMarkNumber t g r c = t := by
      show (if g < t.grids.length ∧ r < (t.grids.getD g ⟨[]⟩).rows.length then _ else _) = _
      rw [if_pos ⟨hg, hr⟩]
      show (if (claimedRowOf t g r).cells.get? c ≠ some none then _ else _) = _
      rw [if_neg ?_]
      intro hne
      apply hne
      rw [List.get?_eq_getElem?, List.getElem?_eq_getElem hcc]
      have := hnone
      rw [List.getD_eq_getElem?_getD, List.getElem?_eq_getElem hcc] at this
      simpa using this
    exact ⟨fun _ => hm, by rw [hm, hm], fun habs => by rw [hnone] at habs; simp at habs,
      by rw [hsvc, hm]⟩

/-- C6 witness: on the sample ticket, cell (0,0,0) holds a number; two marks
restore the original ticket. -/
theorem markNumber_toggle_witness :
    0 < sampleTicket.grids.length ∧ (0 : Nat) < 3 ∧ (0 : Nat) < 9 ∧
    0 < (sampleTicket.grids.getD 0 ⟨[]⟩).rows.length ∧
    0 < (claimedRowOf sampleTicket 0 0).marked.length ∧
    0 < (claimedRowOf sampleTicket 0 0).cells.length ∧
    markNumber (markNumber sampleTicket 0 0 0) 0 0 0 = sampleTicket :=
  ⟨by decide, by decide, by decide, by decide, by decide, by decide,
    (markNumber_toggle sampleTicket 0 0 0 (by decide) (by decide) (by decide) (by decide)
      (by decide) (by decide)).2.1⟩

/-! ## C7: ticket creation is clamped by the per-player cap -/

/-- C7 (amended): TicketService.createTickets creates exactly
min(count, max(0, cap - alreadyOwned)) tickets, returns only the newly created
ones, never pushes the total beyond the cap (when not already beyond), and
returns none at all once the cap is reached; the server.js handler instead
clamps only to min(count, cap) per call, ignoring tickets already owned. -/
theorem createTickets_clamped (count cap : Nat) (existing : List LotoTicket)
    (gen : Nat → LotoTicket) :
    (createTickets count cap existing gen).1.length = min count (cap - existing.length) ∧
    (createTickets count cap existing gen).2 =
      existing ++ (createTickets count cap existing gen).1 ∧
    (createTickets count cap existing gen).2.length ≤ max existing.length cap ∧
    (existing.length ≥ cap → (createTickets count cap existing gen).1 = []) ∧
    (serverCreateTickets count cap existing gen).1.length = min count cap := by
  have hallow : allowedTickets cap existing.length = cap - existing.length := by
    simp only [allowedTickets]
    omega
  have hlen : (createTickets count cap existing gen).1.length =
      min count (cap - existing.length) := by
    simp [createTickets, hallow]
  refine ⟨hlen, rfl, ?_, ?_, ?_⟩
  · show (existing ++ _).length ≤ _
    rw [List.length_append]
    simp only [List.length_map, List.length_range]
    rw [hallow]
    omega
  · intro hge
    have : min count (cap - existing.length) = 0 := by omega
    simp [createTickets, hallow, this]
  · simp [serverCreateTickets]

/-- C7 witness: at the cap (5 of 5 owned), a request for 3 more yields no new
tickets from TicketService.createTickets. -/
theorem createTickets_clamped_witness :
    (List.replicate 5 (⟨[]⟩ : LotoTicket)).length ≥ 5 ∧
    (createTickets 3 5 (List.replicate 5 (⟨[]⟩ : LotoTicket)) (fun _ => ⟨[]⟩)).1 = [] :=
  ⟨by decide,
    (createTickets_clamped 3 5 (List.replicate 5 ⟨[]⟩) (fun _ => ⟨[]⟩)).2.2.2.1 (by decide)⟩

/-- C7 counterexample: the server.js player:create-tickets handler, for a
player already owning 5 tickets in a room capped at 5 per player, creates 3
further tickets (total 8 > 5), where the claimed clamp min(count, cap - owned)
is 0. -/
theorem serverCreateTickets_ignores_owned :
    (serverCreateTickets 3 5 (List.replicate 5 (⟨[]⟩ : LotoTicket)) (fun _ => ⟨[]⟩)).1.length = 3 ∧
    (serverCreateTickets 3 5 (List.replicate 5 (⟨[]⟩ : LotoTicket)) (fun _ => ⟨[]⟩)).2.length = 8 ∧
    min 3 (5 - 5) = 0 := by
  refine ⟨?_, ?_, rfl⟩ <;> rfl

/-! ## C8: joining a full room fails with RoomFull and leaves the roster -/

/-- C8: join fails with RoomNotFound on a missing room; it fails with RoomFull
exactly when the player count is at least settings.maxPlayers, leaving the
roster unchanged; otherwise the player is appended; and in a room created with
maxPlayers = 2 the third join attempt returns RoomFull. -/
theorem joinRoom_capacity (room : Room) (p : Player) :
    (room.players.length ≥ room.settings.maxPlayers →
      joinRoom (some room) p = (some room, JoinOutcome.roomFull)) ∧
    (room.players.length < room.settings.maxPlayers →
      joinRoom (some room) p =
        (some { room with players := room.players ++ [p] }, JoinOutcome.joined)) ∧
    joinRoom none p = (none, JoinOutcome.roomNotFound) ∧
    (joinRoom (some (joinRoomState (joinRoomState
        (createRoom 0 { maxPlayers := 2, ticketsPerPlayer := 5 })
        { oderId := 1, isHost := false }) { oderId := 2, isHost := false }))
      { oderId := 3, isHost := false }).2 = JoinOutcome.roomFull := by
  refine ⟨?_, ?_, rfl, by decide⟩
  · intro h
    simp [joinRoom, h]
  · intro h
    simp [joinRoom, Nat.not_le_of_lt h]

/-- C8 witness: a 1-player room with maxPlayers = 1 rejects a join with
RoomFull, roster unchanged. -/
theorem joinRoom_capacity_witness :
    (createRoom 0 { maxPlayers := 1, ticketsPerPlayer := 5 }).players.length ≥
      (createRoom 0 { maxPlayers := 1, ticketsPerPlayer := 5 }).settings.maxPlayers ∧
    joinRoom (some (createRoom 0 { maxPlayers := 1, ticketsPerPlayer := 5 }))
        { oderId := 1, isHost := false } =
      (some (createRoom 0 { maxPlayers := 1, ticketsPerPlayer := 5 }), JoinOutcome.roomFull) :=
  ⟨by decide,
    (joinRoom_capacity (createRoom 0 { maxPlayers := 1, ticketsPerPlayer := 5 })
      { oderId := 1, isHost := false }).1 (by decide)⟩

/-! ## C1: the number caller never repeats; ranges of the two implementations -/

/-- Membership in the available pool. -/
theorem mem_availableNumbers (called : List Nat) (hi n : Nat) :
    n ∈ availableNumbers called 1 hi ↔ (1 ≤ n ∧ n ≤ hi ∧ n ∉ called) := by
  simp only [availableNumbers, List.mem_filter, List.mem_range'_1]
  constructor
  · rintro ⟨⟨h1, h2⟩, h3⟩
    simp at h3
    exact ⟨h1, by omega, h3⟩
  · rintro ⟨h1, h2, h3⟩
    refine ⟨⟨h1, by omega⟩, by simpa using h3⟩

/-- The available pool is empty exactly when every number of the range has been
called. -/
theorem availableNumbers_eq_nil (called : List Nat) (hi : Nat) :
    availableNumbers called 1 hi = [] ↔ ∀ n, 1 ≤ n → n ≤ hi → n ∈ called := by
  rw [availableNumbers, List.filter_eq_nil_iff]
  constructor
  · intro h n h1 h2
    have := h n (by rw [List.mem_range'_1]; omega)
    simpa using this
  · intro h n hn
    rw [List.mem_range'_1] at hn
    simpa using h n hn.1 (by omega)

/-- The random index pick lands inside the available pool. -/
theorem availableNumbers_getD_mem (called : List Nat) (hi r : Nat)
    (h : availableNumbers called 1 hi ≠ []) :
    (availableNumbers called 1 hi).getD (r % (availableNumbers called 1 hi).length) 0 ∈
      availableNumbers called 1 hi := by
  have hlen : 0 < (availableNumbers called 1 hi).length := List.length_pos.mpr h
  have hm : r % (availableNumbers called 1 hi).length <
      (availableNumbers called 1 hi).length := Nat.mod_lt r hlen
  rw [List.getD_eq_getElem?_getD, List.getElem?_eq_getElem hm]
  exact List.getElem_mem hm

/-- Pigeonhole facts for a duplicate-free called list inside [1, hi]. -/
theorem called_card (called : List Nat) (hi : Nat) (hnd : called.Nodup)
    (hsub : ∀ n ∈ called, 1 ≤ n ∧ n ≤ hi) :
    called.length ≤ hi ∧
    (called.length = hi → called.toFinset = Finset.Icc 1 hi) ∧
    ((∀ n, 1 ≤ n → n ≤ hi → n ∈ called) → hi ≤ called.length) := by
  have hsubF : called.toFinset ⊆ Finset.Icc 1 hi := by
    intro n hn
    rw [List.mem_toFinset] at hn
    rcases hsub n hn with ⟨h1, h2⟩
    exact Finset.mem_Icc.mpr ⟨h1, h2⟩
  have hcard : called.toFinset.card = called.length := List.toFinset_card_of_nodup hnd
  have hle := Finset.card_le_card hsubF
  rw [hcard, Nat.card_Icc] at hle
  refine ⟨by omega, ?_, ?_⟩
  · intro heq
    apply Finset.eq_of_subset_of_card_le hsubF
    rw [hcard, heq, Nat.card_Icc]
    omega
  · intro h
    have hIcc : Finset.Icc 1 hi ⊆ called.toFinset := by
      intro n hn
      rw [Finset.mem_Icc] at hn
      rw [List.mem_toFinset]
      exact h n hn.1 hn.2
    have := Finset.card_le_card hIcc
    rw [hcard, Nat.card_Icc] at this
    omega

/-- Invariant of iterated generateNextNumber draws: the history stays
duplicate-free inside [1, 90] and grows by one per draw until full. -/
theorem iterateDraws_invariant (rs : List Nat) (called : List Nat)
    (hnd : called.Nodup) (hsub : ∀ n ∈ called, 1 ≤ n ∧ n ≤ 90) :
    (iterateDraws rs called).Nodup ∧
    (∀ n ∈ iterateDraws rs called, 1 ≤ n ∧ n ≤ 90) ∧
    (iterateDraws rs called).length = min (called.length + rs.length) 90 := by
  induction rs generalizing called with
  | nil =>
    have hle := (called_card called 90 hnd hsub).1
    refine ⟨hnd, hsub, ?_⟩
    simp only [iterateDraws, List.length_nil]
    omega
  | cons r rest ih =>
    by_cases hv : availableNumbers called 1 90 = []
    · have hfull : ∀ n, 1 ≤ n → n ≤ 90 → n ∈ called :=
        (availableNumbers_eq_nil called 90).mp hv
      have h90 : 90 ≤ called.length := (called_card called 90 hnd hsub).2.2 hfull
      have hle := (called_card called 90 hnd hsub).1
      have hnone : generateNextNumber called r = none := by
        simp [generateNextNumber, List.isEmpty_iff, hv]
      have hstep : iterateDraws (r :: rest) called = called := by
        rw [iterateDraws, hnone]
      rw [hstep]
      refine ⟨hnd, hsub, by omega⟩
    · have hne : (availableNumbers called 1 90).isEmpty = false := by
        simpa [List.isEmpty_iff] using hv
      set n0 := (availableNumbers called 1 90).getD
        (r % (availableNumbers called 1 90).length) 0 with hn0
      have hsome : generateNextNumber called r = some n0 := by
        simp [generateNextNumber, hne]
        rw [hn0, List.getD_eq_getElem?_getD]
      have hmem := availableNumbers_getD_mem called 90 r hv
      rw [mem_availableNumbers] at hmem
      rcases hmem with ⟨h1, h2, h3⟩
      have hstep : iterateDraws (r :: rest) called = iterateDraws rest (called ++ [n0]) := by
        rw [iterateDraws, hsome]
      have hnd2 : (called ++ [n0]).Nodup := by
        rw [List.nodup_append]
        refine ⟨hnd, List.nodup_singleton _, ?_⟩
        intro a ha hb
        rw [List.mem_singleton] at hb
        subst hb
        exact h3 ha
      have hsub2 : ∀ n ∈ called ++ [n0], 1 ≤ n ∧ n ≤ 90 := by
        intro n hn
        rcases List.mem_append.mp hn with h | h
        · exact hsub n h
        · rw [List.mem_singleton] at h
          subst h
          exact ⟨h1, h2⟩
      have ihx := ih _ hnd2 hsub2
      rw [hstep]
      refine ⟨ihx.1, ihx.2.1, ?_⟩
      rw [ihx.2.2]
      simp only [List.length_append, List.length_cons, List.length_nil]
      omega

/-- Invariant of iterated spinNumber calls: same as iterateDraws_invariant but
over the 1..89 range of spinNumber, and the session stays unended. -/
theorem iterateSpins_invariant (rs : List Nat) (s : GameSession)
    (hend : s.endedAt = none)
    (hnd : (calledOf s).Nodup) (hsub : ∀ n ∈ calledOf s, 1 ≤ n ∧ n ≤ 89) :
    (calledOf (iterateSpins rs s)).Nodup ∧
    (∀ n ∈ calledOf (iterateSpins rs s), 1 ≤ n ∧ n ≤ 89) ∧
    (calledOf (iterateSpins rs s)).length = min ((calledOf s).length + rs.length) 89 ∧
    (iterateSpins rs s).endedAt = none := by
  induction rs generalizing s with
  | nil =>
    have hle := (called_card (calledOf s) 89 hnd hsub).1
    refine ⟨hnd, hsub, ?_, hend⟩
    simp only [iterateSpins, List.length_nil]
    omega
  | cons r rest ih =>
    have hnotsome : s.endedAt.isSome = false := by simp [hend]
    by_cases hv : availableNumbers (calledOf s) 1 89 = []
    · have hfull := (availableNumbers_eq_nil (calledOf s) 89).mp hv
      have h89 : 89 ≤ (calledOf s).length := (called_card (calledOf s) 89 hnd hsub).2.2 hfull
      have hle := (called_card (calledOf s) 89 hnd hsub).1
      have hnone : spinNumber s r 0 = none := by
        simp [spinNumber, hnotsome, List.isEmpty_iff, hv]
      have hstep : iterateSpins (r :: rest) s = s := by
        rw [iterateSpins, hnone]
      rw [hstep]
      refine ⟨hnd, hsub, by omega, hend⟩
    · have hne : (availableNumbers (calledOf s) 1 89).isEmpty = false := by
        simpa [List.isEmpty_iff] using hv
      set n0 := (availableNumbers (calledOf s) 1 89).getD
        (r % (availableNumbers (calledOf s) 1 89).length) 0 with hn0
      have hsome : spinNumber s r 0 = some
          (n0, { s with calledNumbers := s.calledNumbers ++ [⟨n0, 0⟩] }) := by
        simp [spinNumber, hnotsome, hne]
        rw [hn0, List.getD_eq_getElem?_getD]
      have hmem := availableNumbers_getD_mem (calledOf s) 89 r hv
      rw [mem_availableNumbers] at hmem
      rcases hmem with ⟨h1, h2, h3⟩
      have hstep : iterateSpins (r :: rest) s =
          iterateSpins rest { s with calledNumbers := s.calledNumbers ++ [⟨n0, 0⟩] } := by
        rw [iterateSpins, hsome]
      have hcalled2 : calledOf { s with calledNumbers := s.calledNumbers ++ [⟨n0, 0⟩] } =
          calledOf s ++ [n0] := by
        simp [calledOf]
      have hnd2 : (calledOf s ++ [n0]).Nodup := by
        rw [List.nodup_append]
        refine ⟨hnd, List.nodup_singleton _, ?_⟩
        intro a ha hb
        rw [List.mem_singleton] at hb
        subst hb
        exact h3 ha
      have hsub2 : ∀ n ∈ calledOf s ++ [n0], 1 ≤ n ∧ n ≤ 89 := by
        intro n hn
        rcases List.mem_append.mp hn with h | h
        · exact hsub n h
        · rw [List.mem_singleton] at h
          subst h
          exact ⟨h1, h2⟩
      have ihx := ih { s with calledNumbers := s.calledNumbers ++ [⟨n0, 0⟩] } hend
        (by rw [hcalled2]; exact hnd2) (by rw [hcalled2]; exact hsub2)
      rw [hstep]
      refine ⟨ihx.1, ihx.2.1, ?_, ihx.2.2.2⟩
      rw [ihx.2.2.1, hcalled2]
      simp only [List.length_append, List.length_cons, List.length_nil]
      omega

/-- C1 (amended): the number caller never returns an already-called number in
either implementation; generateNextNumber draws from [1, 90] - it returns null
exactly when every number 1..90 has been called, and from an empty history 90
draws produce exactly the set {1..90} after which a further draw is null;
GameService.spinNumber instead draws from [1, 89] - a successful spin appends
a fresh number of 1..89, and from an empty session 89 spins produce exactly
{1..89} after which a further spin returns null. -/
theorem numberCaller_draws (called rs : List Nat) (r : Nat) (s : GameSession) :
    (∀ n, generateNextNumber called r = some n → n ∉ called ∧ 1 ≤ n ∧ n ≤ 90) ∧
    (generateNextNumber called r = none ↔ ∀ n, 1 ≤ n → n ≤ 90 → n ∈ called) ∧
    (∀ n s2, spinNumber s r 0 = some (n, s2) →
      n ∉ calledOf s ∧ 1 ≤ n ∧ n ≤ 89 ∧ calledOf s2 = calledOf s ++ [n]) ∧
    (s.endedAt = none →
      (spinNumber s r 0 = none ↔ ∀ n, 1 ≤ n → n ≤ 89 → n ∈ calledOf s)) ∧
    (rs.length = 90 →
      (iterateDraws rs []).toFinset = Finset.Icc 1 90 ∧
      generateNextNumber (iterateDraws rs []) r = none) ∧
    (rs.length = 89 →
      (calledOf (iterateSpins rs ⟨[], none, none⟩)).toFinset = Finset.Icc 1 89 ∧
      spinNumber (iterateSpins rs ⟨[], none, none⟩) r 0 = none) := by
  have hgen : ∀ (cs : List Nat), ∀ n, generateNextNumber cs r = some n →
      n ∉ cs ∧ 1 ≤ n ∧ n ≤ 90 := by
    intro cs n hsome
    by_cases hv : availableNumbers cs 1 90 = []
    · have : generateNextNumber cs r = none := by
        simp [generateNextNumber, List.isEmpty_iff, hv]
      rw [this] at hsome
      exact absurd hsome (by simp)
    · have hne : (availableNumbers cs 1 90).isEmpty = false := by
        simpa [List.isEmpty_iff] using hv
      have hval : generateNextNumber cs r =
          some ((availableNumbers cs 1 90).getD (r % (availableNumbers cs 1 90).length) 0) := by
        simp [generateNextNumber, hne]
      rw [hval] at hsome
      have hn := Option.some_injective _ hsome
      have hmem := availableNumbers_getD_mem cs 90 r hv
      rw [hn] at hmem
      rw [mem_availableNumbers] at hmem
      exact ⟨hmem.2.2, hmem.1, hmem.2.1⟩
  have hgnone : ∀ (cs : List Nat), generateNextNumber cs r = none ↔
      ∀ n, 1 ≤ n → n ≤ 90 → n ∈ cs := by
    intro cs
    rw [← availableNumbers_eq_nil cs 90]
    constructor
    · intro h
      by_contra hv
      have hne : (availableNumbers cs 1 90).isEmpty = false := by
        simpa [List.isEmpty_iff] using hv
      have hs2 : (generateNextNumber cs r).isSome = true := by
        simp [generateNextNumber, hne]
      rw [h] at hs2
      exact absurd hs2 (by simp)
    · intro hv
      simp [generateNextNumber, List.isEmpty_iff, hv]
  have hspin : ∀ (t : GameSession), ∀ n s2, spinNumber t r 0 = some (n, s2) →
      n ∉ calledOf t ∧ 1 ≤ n ∧ n ≤ 89 ∧ calledOf s2 = calledOf t ++ [n] := by
    intro t n s2 hsome
    by_cases hd : t.endedAt.isSome = true
    · have : spinNumber t r 0 = none := by simp [spinNumber, hd]
      rw [this] at hsome
      exact absurd hsome (by simp)
    · have hd' : t.endedAt.isSome = false := by
        cases hx : t.endedAt.isSome
        · rfl
        · exact absurd hx hd
      by_cases hv : availableNumbers (calledOf t) 1 89 = []
      · have : spinNumber t r 0 = none := by
          simp [spinNumber, hd', List.isEmpty_iff, hv]
        rw [this] at hsome
        exact absurd hsome (by simp)
      · have hne : (availableNumbers (calledOf t) 1 89).isEmpty = false := by
          simpa [List.isEmpty_iff] using hv
        have hval : spinNumber t r 0 = some
            ((availableNumbers (calledOf t) 1 89).getD
              (r % (availableNumbers (calledOf t) 1 89).length) 0,
            { t with calledNumbers := t.calledNumbers ++
              [⟨(availableNumbers (calledOf t) 1 89).getD
                (r % (availableNumbers (calledOf t) 1 89).length) 0, 0⟩] }) := by
          simp [spinNumber, hd', hne]
        rw [hval] at hsome
        have hpair := Option.some_injective _ hsome
        have hn : (availableNumbers (calledOf t) 1 89).getD
            (r % (availableNumbers (calledOf t) 1 89).length) 0 = n :=
          congrArg Prod.fst hpair
        have hs2 : s2 = { t with calledNumbers := t.calledNumbers ++ [⟨n, 0⟩] } := by
          have := congrArg Prod.snd hpair
          rw [hn] at this
          exact this.symm
        have hmem := availableNumbers_getD_mem (calledOf t) 89 r hv
        rw [hn, mem_availableNumbers] at hmem
        refine ⟨hmem.2.2, hmem.1, hmem.2.1, ?_⟩
        rw [hs2]
        simp [calledOf]
  have hspinnone : ∀ (t : GameSession), t.endedAt = none →
      (spinNumber t r 0 = none ↔ ∀ n, 1 ≤ n → n ≤ 89 → n ∈ calledOf t) := by
    intro t hend
    have hd' : t.endedAt.isSome = false := by simp [hend]
    rw [← availableNumbers_eq_nil (calledOf t) 89]
    constructor
    · intro h
      by_contra hv
      have hne : (availableNumbers (calledOf t) 1 89).isEmpty = false := by
        simpa [List.isEmpty_iff] using hv
      have hs2 : (spinNumber t r 0).isSome = true := by
        simp [spinNumber, hd', hne]
      rw [h] at hs2
      exact absurd hs2 (by simp)
    · intro hv
      simp [spinNumber, hd', List.isEmpty_iff, hv]
  refine ⟨hgen called, hgnone called, hspin s, hspinnone s, ?_, ?_⟩
  · intro h90
    have hinv := iterateDraws_invariant rs [] List.nodup_nil (by intro n hn; exact absurd hn (List.not_mem_nil n))
    have hlen : (iterateDraws rs []).length = 90 := by
      rw [hinv.2.2, h90]
      simp
    have hfin := (called_card (iterateDraws rs []) 90 hinv.1 hinv.2.1).2.1 hlen
    refine ⟨hfin, ?_⟩
    rw [hgnone]
    intro n h1 h2
    have : n ∈ (iterateDraws rs []).toFinset := by
      rw [hfin]
      exact Finset.mem_Icc.mpr ⟨h1, h2⟩
    exact List.mem_toFinset.mp this
  · intro h89
    have hinv := iterateSpins_invariant rs ⟨[], none, none⟩ rfl List.nodup_nil
      (by intro n hn; exact absurd hn (List.not_mem_nil n))
    have hlen : (calledOf (iterateSpins rs ⟨[], none, none⟩)).length = 89 := by
      rw [hinv.2.2.1, h89]
      simp [calledOf]
    have hfin := (called_card _ 89 hinv.1 hinv.2.1).2.1 hlen
    refine ⟨hfin, ?_⟩
    rw [hspinnone _ hinv.2.2.2]
    intro n h1 h2
    have : n ∈ (calledOf (iterateSpins rs ⟨[], none, none⟩)).toFinset := by
      rw [hfin]
      exact Finset.mem_Icc.mpr ⟨h1, h2⟩
    exact List.mem_toFinset.mp this

/-- C1 witness: 90 draws from the empty history produce exactly {1..90}. -/
theorem numberCaller_draws_witness :
    (List.replicate 90 (0 : Nat)).length = 90 ∧
    (iterateDraws (List.replicate 90 0) []).toFinset = Finset.Icc 1 90 :=
  ⟨by decide,
    ((numberCaller_draws [] (List.replicate 90 0) 0 ⟨[], none, none⟩).2.2.2.2.1
      (by decide)).1⟩

/-- C1 counterexample: with 1..89 called, the complement within [1, 90] is
still nonempty (the number 90 is uncalled), yet GameService.spinNumber
returns null - refuting the claim that a draw returns null only when the
[1, 90] complement of the called set is empty. -/
theorem spinNumber_stops_at_89 :
    spinNumber ⟨(List.range' 1 89).map (fun n => ⟨n, 0⟩), none, none⟩ 0 0 = none ∧
    availableNumbers (calledOf ⟨(List.range' 1 89).map (fun n => ⟨n, 0⟩), none, none⟩) 1 90 =
      [90] := by
  constructor
  · rfl
  · rfl

/-! ## C4: what winner detection does to the session -/

/-- C4 (amended): the player call path (player:call-kinh) only records the
winner on the current session - endedAt and the called history are untouched,
so the session stays active; the automatic check (checkAutoWinner) leaves the
session unchanged when no row is complete, but when it finds a winner it
records the winner AND sets endedAt, ending the active session. -/
theorem winner_detection_session (s : GameSession) (t : LotoTicket)
    (tickets : List TicketRec) (called : List Nat) (ownerId ticketId g r now : Nat) :
    ((callKinhUpdate s t ownerId ticketId g r).2).endedAt = s.endedAt ∧
    ((callKinhUpdate s t ownerId ticketId g r).2).calledNumbers = s.calledNumbers ∧
    ((callKinhUpdate s t ownerId ticketId g r).1.isWinner = true →
      ((callKinhUpdate s t ownerId ticketId g r).2).winner =
        some { ownerId := ownerId, ticketId := ticketId, grid := some g, row := r }) ∧
    (findAutoWinner tickets called = none →
      (checkAutoWinner tickets called s now).2 = s) ∧
    (∀ w, findAutoWinner tickets called = some w → s.endedAt = none →
      (checkAutoWinner tickets called s now).2.endedAt = some now ∧
      (checkAutoWinner tickets called s now).2.winner = some w) := by
  refine ⟨?_, ?_, ?_, ?_, ?_⟩
  · by_cases hw : (callKinhResult t (calledOf s) g r).isWinner = true
    · simp [callKinhUpdate, hw]
    · simp [callKinhUpdate, hw]
  · by_cases hw : (callKinhResult t (calledOf s) g r).isWinner = true
    · simp [callKinhUpdate, hw]
    · simp [callKinhUpdate, hw]
  · intro hw
    have h1 : (callKinhUpdate s t ownerId ticketId g r).1 = callKinhResult t (calledOf s) g r := by
      by_cases hx : (callKinhResult t (calledOf s) g r).isWinner = true <;>
        simp [callKinhUpdate, hx]
    rw [h1] at hw
    simp [callKinhUpdate, hw]
  · intro hnone
    simp [checkAutoWinner, hnone]
  · intro w hw hend
    simp [checkAutoWinner, hw, hend]

/-- C4 witness: on a concrete one-ticket store with a completed row, the
automatic check records the winner and sets endedAt. -/
theorem winner_detection_session_witness :
    findAutoWinner [⟨0, 0, sampleTicket⟩] [1, 10, 20, 30, 40] =
      some { ownerId := 0, ticketId := 0, grid := none, row := 0 } ∧
    (⟨[], none, none⟩ : GameSession).endedAt = none ∧
    (checkAutoWinner [⟨0, 0, sampleTicket⟩] [1, 10, 20, 30, 40]
      ⟨[], none, none⟩ 7).2.endedAt = some 7 :=
  ⟨by rfl, rfl,
    ((winner_detection_session ⟨[], none, none⟩ sampleTicket [⟨0, 0, sampleTicket⟩]
        [1, 10, 20, 30, 40] 0 0 0 0 7).2.2.2.2
      { ownerId := 0, ticketId := 0, grid := none, row := 0 } (by rfl) rfl).1⟩

/-- C4 counterexample: checkAutoWinner does end the session - starting from an
active session (endedAt none) and a ticket whose first row is fully called,
the session update leaves endedAt set to the current time, refuting the claim
that endedAt remains unset after the automatic check. -/
theorem checkAutoWinner_ends_session :
    (⟨[], none, none⟩ : GameSession).endedAt = none ∧
    (checkAutoWinner [⟨0, 0, sampleTicket⟩] [1, 10, 20, 30, 40]
      ⟨[], none, none⟩ 7).2.endedAt = some 7 := by
  constructor
  · rfl
  · rfl

/-! ## Grid generator, step 1: column counts -/

/-- Setting an index to its successor bumps the sum by one. -/
theorem sum_set_add_one (l : List Nat) (i : Nat) (h : i < l.length) :
    (l.set i (l.getD i 0 + 1)).sum = l.sum + 1 := by
  induction l generalizing i with
  | nil => simp at h
  | cons x xs ih =>
    cases i with
    | zero => simp [List.getD]; omega
    | succ j =>
      simp only [List.set, List.sum_cons, List.getD_cons_succ]
      rw [ih j (by simpa using h)]
      omega

/-- Any successful bumpCounts run keeps 9 entries in [1, 3] and raises the sum
by exactly the remaining budget. -/
theorem bumpCounts_spec (choices : List Nat) (counts : List Nat) (remaining : Nat)
    (res : List Nat) (h : bumpCounts counts remaining choices = some res)
    (hlen : counts.length = 9)
    (hlb : ∀ i < 9, 1 ≤ counts.getD i 0)
    (hub : ∀ i < 9, counts.getD i 0 ≤ 3) :
    res.length = 9 ∧ (∀ i < 9, 1 ≤ res.getD i 0 ∧ res.getD i 0 ≤ 3) ∧
    res.sum = counts.sum + remaining := by
  induction choices generalizing counts remaining with
  | nil =>
    cases remaining with
    | zero =>
      simp only [bumpCounts] at h
      cases h
      exact ⟨hlen, fun i hi => ⟨hlb i hi, hub i hi⟩, by omega⟩
    | succ m => simp [bumpCounts] at h
  | cons choice rest ih =>
    cases remaining with
    | zero =>
      simp only [bumpCounts] at h
      cases h
      exact ⟨hlen, fun i hi => ⟨hlb i hi, hub i hi⟩, by omega⟩
    | succ m =>
      simp only [bumpCounts] at h
      by_cases hlt : counts.getD (choice % 9) 0 < 3
      · rw [if_pos hlt] at h
        have hc9 : choice % 9 < 9 := Nat.mod_lt choice (by omega)
        have hc9' : choice % 9 < counts.length := by omega
        have := ih (counts.set (choice % 9) (counts.getD (choice % 9) 0 + 1)) m h
          (by rw [List.length_set]; exact hlen)
          (by
            intro i hi
            by_cases hic : choice % 9 = i
            · subst hic
              rw [getD_set_self _ _ _ _ hc9']
              omega
            · rw [getD_set_ne _ hic]
              exact hlb i hi)
          (by
            intro i hi
            by_cases hic : choice % 9 = i
            · subst hic
              rw [getD_set_self _ _ _ _ hc9']
              omega
            · rw [getD_set_ne _ hic]
              exact hub i hi)
        refine ⟨this.1, this.2.1, ?_⟩
        rw [this.2.2, sum_set_add_one counts _ hc9']
        omega
      · rw [if_neg hlt] at h
        exact ih counts (m + 1) h hlen hlb hub

/-! ## Grid generator, step 2: the column numbers -/

/-- collectCols succeeds exactly when every column does, producing the
per-column results in order. -/
theorem collectCols_spec (f : Nat → Option (List Nat)) (cs : List Nat)
    (res : List (List Nat)) (h : collectCols f cs = some res) :
    res.length = cs.length ∧
    ∀ i, i < cs.length → f (cs.getD i 0) = some (res.getD i []) := by
  induction cs generalizing res with
  | nil =>
    simp only [collectCols] at h
    cases h
    exact ⟨rfl, fun i hi => by simp at hi⟩
  | cons c rest ih =>
    simp only [collectCols] at h
    cases hf : f c with
    | none => rw [hf] at h; simp at h
    | some nums =>
      rw [hf] at h
      cases hrec : collectCols f rest with
      | none => rw [hrec] at h; simp at h
      | some tail =>
        rw [hrec] at h
        simp only [Option.some.injEq] at h
        subst h
        have := ih tail hrec
        refine ⟨by simp [this.1], ?_⟩
        intro i hi
        cases i with
        | zero => simpa using hf
        | succ j =>
          simp only [List.getD_cons_succ]
          exact this.2 j (by simpa using hi)

/-- The lists of different serial numbers inside a band are duplicate-free. -/
theorem bandList_nodup (c : Nat) : (bandList c).Nodup := by
  unfold bandList
  exact List.nodup_range' _ _

/-- Numbers of a successful unique-column pick: right count, strictly
ascending, inside the band, avoiding the exclusions. -/
theorem pickOneColUnique_spec (exclude : List Nat) (colShuf : Nat → List Nat → List Nat)
    (hperm : ∀ c l, List.Perm (colShuf c l) l)
    (counts : List Nat) (c : Nat) (nums : List Nat)
    (h : pickOneColUnique exclude colShuf counts c = some nums) :
    nums.length = counts.getD c 0 ∧
    List.Pairwise (fun a b => a < b) nums ∧
    ∀ n ∈ nums, n ∈ bandList c ∧ n ∉ exclude := by
  unfold pickOneColUnique at h
  set avail := (bandList c).filter (fun n => !(exclude.contains n)) with havail
  by_cases hlt : avail.length < counts.getD c 0
  · rw [if_pos hlt] at h
    simp at h
  · rw [if_neg hlt] at h
    simp only [Option.some.injEq] at h
    subst h
    have hpermc := hperm c avail
    have hnda : avail.Nodup := (List.filter_sublist _).nodup (bandList_nodup c)
    have hnds : (colShuf c avail).Nodup := hpermc.symm.nodup hnda
    have hndt : ((colShuf c avail).take (counts.getD c 0)).Nodup :=
      (List.take_sublist _ _).nodup hnds
    have hsorted := List.sorted_insertionSort (fun a b => a ≤ b)
      ((colShuf c avail).take (counts.getD c 0))
    have hpermsort := List.perm_insertionSort (fun a b => a ≤ b)
      ((colShuf c avail).take (counts.getD c 0))
    have hndsort : (List.insertionSort (fun a b => a ≤ b)
        ((colShuf c avail).take (counts.getD c 0))).Nodup := hpermsort.symm.nodup hndt
    refine ⟨?_, ?_, ?_⟩
    · rw [hpermsort.length_eq, List.length_take, hpermc.length_eq]
      omega
    · have hne : List.Pairwise (fun a b : Nat => a ≠ b) _ := hndsort
      have := List.Pairwise.and hsorted hne
      exact this.imp (fun hab => lt_of_le_of_ne hab.1 hab.2)
    · intro n hn
      have : n ∈ avail := by
        have h1 : n ∈ (colShuf c avail).take (counts.getD c 0) := hpermsort.mem_iff.mp hn
        have h2 : n ∈ colShuf c avail := (List.take_sublist _ _).mem h1
        exact hpermc.mem_iff.mp h2
      rw [havail, List.mem_filter] at this
      refine ⟨this.1, by simpa using this.2⟩

/-- The rejection sampler, started below its target, returns exactly count
duplicate-free numbers inside [lo, hi]. -/
theorem sampleNums_spec (lo hi count : Nat) (hlohi : lo ≤ hi)
    (picks : List Nat) (acc : List Nat) (res : List Nat)
    (h : sampleNums lo hi count picks acc = some res)
    (hacc : acc.Nodup) (haccm : ∀ n ∈ acc, lo ≤ n ∧ n ≤ hi) (hle : acc.length ≤ count) :
    res.length = count ∧ res.Nodup ∧ ∀ n ∈ res, lo ≤ n ∧ n ≤ hi := by
  induction picks generalizing acc with
  | nil =>
    rw [sampleNums] at h
    by_cases hge : acc.length ≥ count
    · rw [if_pos hge] at h
      simp only [Option.some.injEq] at h
      subst h
      exact ⟨by omega, hacc, haccm⟩
    · rw [if_neg hge] at h
      simp at h
  | cons p rest ih =>
    rw [sampleNums] at h
    by_cases hge : acc.length ≥ count
    · rw [if_pos hge] at h
      simp only [Option.some.injEq] at h
      subst h
      exact ⟨by omega, hacc, haccm⟩
    · rw [if_neg hge] at h
      by_cases hdup : acc.contains (lo + p % (hi + 1 - lo)) = true
      · rw [if_pos hdup] at h
        exact ih acc h hacc haccm (by omega)
      · rw [if_neg hdup] at h
        have hmem : lo + p % (hi + 1 - lo) ∉ acc := by
          intro hx
          exact hdup (List.elem_eq_true_of_mem hx)
        have hbound : lo ≤ lo + p % (hi + 1 - lo) ∧ lo + p % (hi + 1 - lo) ≤ hi := by
          have : p % (hi + 1 - lo) < hi + 1 - lo := Nat.mod_lt p (by omega)
          omega
        refine ih (acc ++ [lo + p % (hi + 1 - lo)]) h ?_ ?_ ?_
        · rw [List.nodup_append]
          refine ⟨hacc, List.nodup_singleton _, ?_⟩
          intro a ha hb
          rw [List.mem_singleton] at hb
          subst hb
          exact hmem ha
        · intro n hn
          rcases List.mem_append.mp hn with hx | hx
          · exact haccm n hx
          · rw [List.mem_singleton] at hx
            subst hx
            exact hbound
        · rw [List.length_append]
          simp only [List.length_cons, List.length_nil]
          omega

/-- Numbers of a successful server column sample: right count, strictly
ascending, inside the band. -/
theorem pickOneColSample_spec (picks : Nat → List Nat) (counts : List Nat) (c : Nat)
    (hlohi : (colRanges.getD c (0, 0)).1 ≤ (colRanges.getD c (0, 0)).2)
    (nums : List Nat) (h : pickOneColSample picks counts c = some nums) :
    nums.length = counts.getD c 0 ∧
    List.Pairwise (fun a b => a < b) nums ∧
    ∀ n ∈ nums, n ∈ bandList c := by
  dsimp only [pickOneColSample] at h
  cases hs : sampleNums (colRanges.getD c (0, 0)).1 (colRanges.getD c (0, 0)).2
      (counts.getD c 0) (picks c) [] with
  | none => rw [hs] at h; simp at h
  | some raw =>
    rw [hs] at h
    simp only [Option.some.injEq] at h
    subst h
    have hspec := sampleNums_spec _ _ _ hlohi _ _ _ hs List.nodup_nil
      (by intro n hn; exact absurd hn (List.not_mem_nil n)) (by simp)
    have hsorted := List.sorted_insertionSort (fun a b => a ≤ b) raw
    have hpermsort := List.perm_insertionSort (fun a b => a ≤ b) raw
    have hndsort : (List.insertionSort (fun a b => a ≤ b) raw).Nodup :=
      hpermsort.symm.nodup hspec.2.1
    refine ⟨by rw [hpermsort.length_eq, hspec.1], ?_, ?_⟩
    · have hne : List.Pairwise (fun a b : Nat => a ≠ b) _ := hndsort
      exact (List.Pairwise.and hsorted hne).imp (fun hab => lt_of_le_of_ne hab.1 hab.2)
    · intro n hn
      have hm := hspec.2.2 n (hpermsort.mem_iff.mp hn)
      unfold bandList
      rw [List.mem_range'_1]
      omega

/-! ## Grid generator, step 3: row distribution -/

/-- bumpFill folding preserves the number of rows. -/
theorem foldl_bumpFill_length (picked : List Nat) (fills : List Nat) :
    (picked.foldl bumpFill fills).length = fills.length := by
  induction picked generalizing fills with
  | nil => rfl
  | cons ρ rest ih =>
    simp only [List.foldl_cons]
    rw [ih]
    simp [bumpFill]

/-- bumpFill folding adds, at each row, the number of times it was picked. -/
theorem foldl_bumpFill_getD (picked : List Nat) (fills : List Nat) (r : Nat)
    (hmem : ∀ ρ ∈ picked, ρ < fills.length) :
    (picked.foldl bumpFill fills).getD r 0 = fills.getD r 0 + picked.count r := by
  induction picked generalizing fills with
  | nil => simp
  | cons ρ rest ih =>
    simp only [List.foldl_cons]
    have hρ : ρ < fills.length := hmem ρ (by simp)
    rw [ih (bumpFill fills ρ) (by
      intro x hx
      simp only [bumpFill, List.length_set]
      exact hmem x (by simp [hx]))]
    by_cases hr : ρ = r
    · subst hr
      rw [show (bumpFill fills ρ).getD ρ 0 = fills.getD ρ 0 + 1 from
        getD_set_self _ _ _ _ hρ]
      simp [List.count_cons]
      omega
    · rw [show (bumpFill fills ρ).getD r 0 = fills.getD r 0 from
        getD_set_ne _ hr _ _]
      have : (r == ρ) = false := by
        simp
        omega
      simp [List.count_cons, this]
      omega

/-- Sum of a mapped list after overwriting an empty slot. -/
theorem sum_map_set_nil (L : List (List Nat)) (i : Nat) (a : List Nat)
    (f : List Nat → Nat) (h : i < L.length) (hz : L.getD i [] = []) (hf0 : f [] = 0) :
    ((L.set i a).map f).sum = (L.map f).sum + f a := by
  induction L generalizing i with
  | nil => simp at h
  | cons x xs ih =>
    cases i with
    | zero =>
      simp only [List.getD_cons_zero] at hz
      subst hz
      simp [hf0]
      omega
    | succ j =>
      simp only [List.set, List.map_cons, List.sum_cons]
      rw [ih j (by simpa using h) (by simpa using hz)]
      omega

/-- getD of replicate is the element or the default. -/
theorem getD_replicate_self {α : Type} (n : Nat) (a : α) (i : Nat) (d : α) (h : i < n) :
    (List.replicate n a).getD i d = a := by
  rw [List.getD_eq_getElem?_getD, List.getElem?_replicate, if_pos h]
  rfl

/-- Invariant of the row-distribution pass: a successful run assigns every
column exactly its count of distinct rows below 3, and the fill counters tally
how many columns picked each row. -/
theorem assignRowsGo_spec (counts : List Nat) (shuf : Nat → List Nat → List Nat)
    (hperm : ∀ c l, List.Perm (shuf c l) l) :
    ∀ (order : List Nat) (asgn : List (List Nat)) (fills : List Nat)
      (res : List (List Nat) × List Nat),
      assignRowsGo counts shuf order asgn fills = some res →
      order.Nodup → (∀ c ∈ order, c < 9) →
      asgn.length = 9 → fills.length = 3 →
      (∀ c ∈ order, asgn.getD c [] = []) →
      (∀ r, fills.getD r 0 = (asgn.map (fun l => l.count r)).sum) →
      (∀ c, c < 9 → (asgn.getD c []).Nodup ∧ (∀ ρ ∈ asgn.getD c [], ρ < 3) ∧
        (c ∉ order → (asgn.getD c []).length = counts.getD c 0)) →
      res.1.length = 9 ∧
      (∀ c, c < 9 → (res.1.getD c []).Nodup ∧ (∀ ρ ∈ res.1.getD c [], ρ < 3) ∧
        (res.1.getD c []).length = counts.getD c 0) ∧
      res.2.length = 3 ∧
      (∀ r, res.2.getD r 0 = (res.1.map (fun l => l.count r)).sum) := by
  intro order
  induction order with
  | nil =>
    intro asgn fills res h hnd hmem hlen hflen hdisj hinv hprev
    simp only [assignRowsGo, Option.some.injEq] at h
    subst h
    refine ⟨hlen, ?_, hflen, hinv⟩
    intro c hc
    have := hprev c hc
    exact ⟨this.1, this.2.1, this.2.2 (List.not_mem_nil c)⟩
  | cons c rest ih =>
    intro asgn fills res h hnd hmem hlen hflen hdisj hinv hprev
    simp only [assignRowsGo] at h
    set count := counts.getD c 0 with hcount
    set avail := [0, 1, 2].filter (fun r => fills.getD r 0 < 5) with havail
    by_cases hlt : avail.length < count
    · rw [if_pos hlt] at h
      simp at h
    · rw [if_neg hlt] at h
      set picked := (shuf c avail).take count with hpicked
      have hc9 : c < 9 := hmem c (by simp)
      have hc9' : c < asgn.length := by omega
      have hpermc := hperm c avail
      have hnda : avail.Nodup := (List.filter_sublist _).nodup (by decide)
      have havmem : ∀ ρ ∈ avail, ρ < 3 := by
        intro ρ hρ
        have := (List.mem_filter.mp hρ).1
        simp at this
        omega
      have hndp : picked.Nodup := (List.take_sublist _ _).nodup (hpermc.symm.nodup hnda)
      have hmemp : ∀ ρ ∈ picked, ρ < 3 := by
        intro ρ hρ
        exact havmem ρ (hpermc.mem_iff.mp ((List.take_sublist _ _).mem hρ))
      have hlenp : picked.length = count := by
        rw [hpicked, List.length_take, hpermc.length_eq]
        omega
      have hrest := ih (asgn.set c picked) (picked.foldl bumpFill fills) res h
        (List.Nodup.of_cons hnd)
        (fun x hx => hmem x (by simp [hx]))
        (by rw [List.length_set]; exact hlen)
        (by rw [foldl_bumpFill_length]; exact hflen)
        (by
          intro x hx
          have hxc : c ≠ x := by
            intro hh
            subst hh
            exact (List.rel_of_pairwise_cons hnd hx) rfl
          rw [getD_set_ne _ hxc]
          exact hdisj x (by simp [hx]))
        (by
          intro r
          rw [foldl_bumpFill_getD picked fills r
            (by intro ρ hρ; have := hmemp ρ hρ; omega)]
          rw [hinv r]
          rw [sum_map_set_nil asgn c picked (fun l => l.count r) hc9'
            (hdisj c (by simp)) (List.count_nil r)])
        (by
          intro x hx
          by_cases hxc : c = x
          · subst hxc
            rw [getD_set_self _ _ _ _ hc9']
            exact ⟨hndp, hmemp, fun _ => by rw [hlenp]⟩
          · rw [getD_set_ne _ hxc]
            have hp := hprev x hx
            refine ⟨hp.1, hp.2.1, ?_⟩
            intro hnotin
            apply hp.2.2
            intro hmem2
            rcases List.mem_cons.mp hmem2 with hh | hh
            · exact hxc hh.symm
            · exact hnotin hh)
      exact hrest

/-- A successful attempt (including the 5/5/5 check) yields an assignment
where every column holds its count of distinct rows and every row is picked
by exactly 5 columns. -/
theorem tryAttempt_spec (counts : List Nat) (shuf : Nat → List Nat → List Nat)
    (hperm : ∀ c l, List.Perm (shuf c l) l) (asgn : List (List Nat))
    (h : tryAttempt counts shuf = some asgn) :
    asgn.length = 9 ∧
    (∀ c, c < 9 → (asgn.getD c []).Nodup ∧ (∀ ρ ∈ asgn.getD c [], ρ < 3) ∧
      (asgn.getD c []).length = counts.getD c 0) ∧
    (∀ r, r < 3 → (asgn.map (fun l => l.count r)).sum = 5) := by
  unfold tryAttempt at h
  cases hrun : assignRowsGo counts shuf (colsOrder counts) (List.replicate 9 []) [0, 0, 0] with
  | none => rw [hrun] at h; simp at h
  | some res =>
    obtain ⟨a1, f1⟩ := res
    rw [hrun] at h
    dsimp only at h
    by_cases hall : f1.all (fun x => x == 5) = true
    · rw [if_pos hall] at h
      simp only [Option.some.injEq] at h
      subst h
      have hop : List.Perm (colsOrder counts) (List.range 9) :=
        List.perm_insertionSort _ _
      have hond : (colsOrder counts).Nodup := hop.symm.nodup (List.nodup_range 9)
      have homem : ∀ c ∈ colsOrder counts, c < 9 := by
        intro c hc
        have := hop.mem_iff.mp hc
        exact List.mem_range.mp this
      have hspec := assignRowsGo_spec counts shuf hperm (colsOrder counts)
        (List.replicate 9 []) [0, 0, 0] (a1, f1) hrun hond homem
        (by simp) (by rfl)
        (by
          intro c hc
          by_cases h9 : c < 9
          · exact getD_replicate_self 9 [] c [] h9
          · rw [List.getD_eq_getElem?_getD, List.getElem?_replicate, if_neg h9]
            rfl)
        (by
          intro r
          rw [List.map_replicate]
          simp only [List.count_nil, List.sum_replicate, Nat.mul_zero]
          rw [List.getD_eq_getElem?_getD]
          rcases r with _ | _ | _ | n <;> rfl)
        (by
          intro c hc
          constructor
          · by_cases h9 : c < 9
            · rw [getD_replicate_self 9 [] c [] h9]; exact List.nodup_nil
            · rw [List.getD_eq_getElem?_getD, List.getElem?_replicate, if_neg h9]
              exact List.nodup_nil
          constructor
          · intro ρ hρ
            by_cases h9 : c < 9
            · rw [getD_replicate_self 9 [] c [] h9] at hρ
              exact absurd hρ (List.not_mem_nil ρ)
            · rw [List.getD_eq_getElem?_getD, List.getElem?_replicate, if_neg h9] at hρ
              exact absurd hρ (List.not_mem_nil ρ)
          · intro hno
            exact absurd (hop.mem_iff.mpr (List.mem_range.mpr hc)) hno)
      refine ⟨hspec.1, hspec.2.1, ?_⟩
      intro r hr
      rw [← hspec.2.2.2 r]
      have hlen3 : f1.length = 3 := hspec.2.2.1
      have hrl : r < f1.length := by omega
      have hmm : f1.getD r 0 ∈ f1 := by
        rw [List.getD_eq_getElem?_getD, List.getElem?_eq_getElem hrl]
        exact List.getElem_mem hrl
      have := List.all_eq_true.mp hall _ hmm
      simpa using this
    · rw [if_neg hall] at h
      simp at h

/-- The attempt loop returns the assignment of its first successful attempt. -/
theorem rowDistribute_spec (counts : List Nat)
    (attempts : List (Nat → List Nat → List Nat))
    (hperm : ∀ f ∈ attempts, ∀ c l, List.Perm (f c l) l)
    (asgn : List (List Nat)) (h : rowDistribute counts attempts = some asgn) :
    asgn.length = 9 ∧
    (∀ c, c < 9 → (asgn.getD c []).Nodup ∧ (∀ ρ ∈ asgn.getD c [], ρ < 3) ∧
      (asgn.getD c []).length = counts.getD c 0) ∧
    (∀ r, r < 3 → (asgn.map (fun l => l.count r)).sum = 5) := by
  induction attempts with
  | nil => simp [rowDistribute] at h
  | cons f rest ih =>
    simp only [rowDistribute] at h
    cases ht : tryAttempt counts f with
    | some a =>
      rw [ht] at h
      simp only [Option.some.injEq] at h
      subst h
      exact tryAttempt_spec counts f (hperm f (by simp)) a ht
    | none =>
      rw [ht] at h
      exact ih (fun g hg => hperm g (by simp [hg])) h

/-! ## Grid generator, step 4: cell placement -/

/-- lookupIdx misses rows that were never assigned. -/
theorem lookupIdx_eq_none (rs ns : List Nat) (r : Nat) (h : r ∉ rs) :
    lookupIdx rs ns r = none := by
  induction rs generalizing ns with
  | nil => cases ns <;> rfl
  | cons r0 rest ih =>
    cases ns with
    | nil => rfl
    | cons n0 ns' =>
      simp only [lookupIdx]
      rw [if_neg (by intro hh; exact h (by rw [hh]; simp))]
      exact ih ns' (fun hx => h (by simp [hx]))

/-- A lookupIdx hit pins its row into the assigned list. -/
theorem lookupIdx_mem_row (rs ns : List Nat) (r v : Nat)
    (h : lookupIdx rs ns r = some v) : r ∈ rs := by
  induction rs generalizing ns with
  | nil => cases ns <;> simp [lookupIdx] at h
  | cons r0 rest ih =>
    cases ns with
    | nil => simp [lookupIdx] at h
    | cons n0 ns' =>
      simp only [lookupIdx] at h
      by_cases hr : r0 = r
      · simp [hr]
      · rw [if_neg hr] at h
        simp [ih ns' h]

/-- lookupIdx hits exactly the assigned rows. -/
theorem lookupIdx_isSome (rs ns : List Nat) (r : Nat) (hlen : rs.length = ns.length) :
    (lookupIdx rs ns r).isSome = true ↔ r ∈ rs := by
  induction rs generalizing ns with
  | nil => cases ns <;> simp [lookupIdx]
  | cons r0 rest ih =>
    cases ns with
    | nil => simp at hlen
    | cons n0 ns' =>
      simp only [lookupIdx]
      by_cases hr : r0 = r
      · subst hr
        simp
      · rw [if_neg hr]
        rw [ih ns' (by simpa using hlen)]
        simp
        intro hx
        exact absurd hx.symm hr

/-- A lookupIdx hit returns one of the placed numbers. -/
theorem lookupIdx_mem (rs ns : List Nat) (r v : Nat)
    (h : lookupIdx rs ns r = some v) : v ∈ ns := by
  induction rs generalizing ns with
  | nil => cases ns <;> simp [lookupIdx] at h
  | cons r0 rest ih =>
    cases ns with
    | nil => simp [lookupIdx] at h
    | cons n0 ns' =>
      simp only [lookupIdx] at h
      by_cases hr : r0 = r
      · rw [if_pos hr] at h
        simp only [Option.some.injEq] at h
        simp [h]
      · rw [if_neg hr] at h
        simp [ih ns' h]

/-- With both lists strictly ascending, a lower row holds a smaller number. -/
theorem lookupIdx_strictMono (rs ns : List Nat)
    (hrs : List.Pairwise (fun a b => a < b) rs)
    (hns : List.Pairwise (fun a b => a < b) ns)
    (r r' v v' : Nat)
    (h : lookupIdx rs ns r = some v) (h' : lookupIdx rs ns r' = some v')
    (hlt : r < r') : v < v' := by
  induction rs generalizing ns with
  | nil => cases ns <;> simp [lookupIdx] at h
  | cons r0 rest ih =>
    cases ns with
    | nil => simp [lookupIdx] at h
    | cons n0 ns' =>
      simp only [lookupIdx] at h h'
      by_cases hr : r0 = r
      · rw [if_pos hr] at h
        simp only [Option.some.injEq] at h
        subst h
        have hr' : r0 ≠ r' := by omega
        rw [if_neg hr'] at h'
        exact List.rel_of_pairwise_cons hns (lookupIdx_mem rest ns' r' v' h')
      · rw [if_neg hr] at h
        by_cases hr2 : r0 = r'
        · exfalso
          have hrmem : r ∈ rest := lookupIdx_mem_row rest ns' r v h
          have := List.rel_of_pairwise_cons hrs hrmem
          omega
        · rw [if_neg hr2] at h'
          exact ih ns' (List.Pairwise.of_cons hrs) (List.Pairwise.of_cons hns) h h'

/-- With duplicate-free numbers, different rows hold different numbers. -/
theorem lookupIdx_ne (rs ns : List Nat) (hns : ns.Nodup) (r r' v v' : Nat)
    (h : lookupIdx rs ns r = some v) (h' : lookupIdx rs ns r' = some v')
    (hrr : r ≠ r') : v ≠ v' := by
  induction rs generalizing ns with
  | nil => cases ns <;> simp [lookupIdx] at h
  | cons r0 rest ih =>
    cases ns with
    | nil => simp [lookupIdx] at h
    | cons n0 ns' =>
      simp only [lookupIdx] at h h'
      by_cases hr : r0 = r
      · rw [if_pos hr] at h
        simp only [Option.some.injEq] at h
        subst h
        rw [if_neg (by omega : ¬ r0 = r')] at h'
        have : v' ∈ ns' := lookupIdx_mem rest ns' r' v' h'
        intro hvv
        subst hvv
        exact (List.nodup_cons.mp hns).1 this
      · rw [if_neg hr] at h
        by_cases hr2 : r0 = r'
        · rw [if_pos hr2] at h'
          simp only [Option.some.injEq] at h'
          subst h'
          have : v ∈ ns' := lookupIdx_mem rest ns' r v h
          intro hvv
          rw [hvv] at this
          exact (List.nodup_cons.mp hns).1 this
        · rw [if_neg hr2] at h'
          exact ih ns' (List.nodup_cons.mp hns).2 h h'

/-- placeCol does not change the number of rows. -/
theorem placeCol_length (cells : List (List (Option Nat))) (c : Nat) (rs ns : List Nat) :
    (placeCol cells c rs ns).length = cells.length := by
  induction rs generalizing cells ns with
  | nil => cases ns <;> rfl
  | cons r0 rest ih =>
    cases ns with
    | nil => rfl
    | cons n0 ns' =>
      simp only [placeCol]
      rw [ih]
      exact List.length_set cells r0 _

/-- placeCol does not change the length of any row. -/
theorem placeCol_row_length (cells : List (List (Option Nat))) (c : Nat)
    (rs ns : List Nat) (r : Nat) :
    ((placeCol cells c rs ns).getD r []).length = (cells.getD r []).length := by
  induction rs generalizing cells ns with
  | nil => cases ns <;> rfl
  | cons r0 rest ih =>
    cases ns with
    | nil => rfl
    | cons n0 ns' =>
      simp only [placeCol]
      rw [ih]
      by_cases hr : r0 = r
      · subst hr
        by_cases hlt : r0 < cells.length
        · rw [getD_set_self _ _ _ _ hlt, List.length_set]
        · rw [List.set_eq_of_length_le (by omega)]
      · rw [getD_set_ne _ hr]

/-- placeCol only writes into its own column. -/
theorem placeCol_cellAt_ne (cells : List (List (Option Nat))) (c c' : Nat)
    (hcc : c' ≠ c) (rs ns : List Nat) (r : Nat) :
    cellAt (placeCol cells c rs ns) r c' = cellAt cells r c' := by
  induction rs generalizing cells ns with
  | nil => cases ns <;> rfl
  | cons r0 rest ih =>
    cases ns with
    | nil => rfl
    | cons n0 ns' =>
      simp only [placeCol]
      rw [ih]
      unfold cellAt
      by_cases hr : r0 = r
      · subst hr
        by_cases hlt : r0 < cells.length
        · rw [getD_set_self _ _ _ _ hlt]
          rw [getD_set_ne _ (fun h => hcc h.symm)]
        · rw [List.set_eq_of_length_le (by omega)]
      · rw [getD_set_ne _ hr]

/-- What placeCol leaves in its own column: the lookupIdx value when the row
was assigned, the previous cell otherwise. -/
theorem placeCol_cellAt_col (cells : List (List (Option Nat))) (c : Nat)
    (rs ns : List Nat) (hnd : rs.Nodup) (hlen : rs.length = ns.length)
    (hr : ∀ ρ ∈ rs, ρ < cells.length)
    (hclen : ∀ ρ ∈ rs, c < (cells.getD ρ []).length) (r : Nat) :
    cellAt (placeCol cells c rs ns) r c =
      match lookupIdx rs ns r with
      | some v => some v
      | none => cellAt cells r c := by
  induction rs generalizing cells ns with
  | nil => cases ns <;> rfl
  | cons r0 rest ih =>
    cases ns with
    | nil => simp at hlen
    | cons n0 ns' =>
      simp only [placeCol, lookupIdx]
      have hr0 : r0 < cells.length := hr r0 (by simp)
      have hc0 : c < (cells.getD r0 []).length := hclen r0 (by simp)
      have hih := ih (cells.set r0 ((cells.getD r0 []).set c (some n0))) ns'
        (List.nodup_cons.mp hnd).2
        (by simpa using hlen)
        (by
          intro ρ hρ
          rw [List.length_set]
          exact hr ρ (by simp [hρ]))
        (by
          intro ρ hρ
          by_cases hρ0 : r0 = ρ
          · subst hρ0
            rw [getD_set_self _ _ _ _ hr0, List.length_set]
            exact hc0
          · rw [getD_set_ne _ hρ0]
            exact hclen ρ (by simp [hρ]))
      rw [hih]
      by_cases hrr : r0 = r
      · subst hrr
        rw [if_pos rfl]
        rw [lookupIdx_eq_none rest ns' r0 (List.nodup_cons.mp hnd).1]
        unfold cellAt
        rw [getD_set_self _ _ _ _ hr0, getD_set_self _ _ _ _ hc0]
      · rw [if_neg hrr]
        cases hlk : lookupIdx rest ns' r with
        | some v => rfl
        | none =>
          unfold cellAt
          rw [getD_set_ne _ hrr]

/-- Folding the placement over distinct columns: each listed column ends up
showing its own lookupIdx placement, all others keep their initial cells. -/
theorem placeAll_spec (asgn nums : List (List Nat))
    (hprops : ∀ c, c < 9 → (List.insertionSort (fun a b => a ≤ b) (asgn.getD c [])).Nodup ∧
      (∀ ρ ∈ List.insertionSort (fun a b => a ≤ b) (asgn.getD c []), ρ < 3) ∧
      (List.insertionSort (fun a b => a ≤ b) (asgn.getD c [])).length =
        (nums.getD c []).length) :
    ∀ (cs : List Nat) (cells : List (List (Option Nat))),
      cs.Nodup → (∀ c ∈ cs, c < 9) →
      cells.length = 3 → (∀ ρ, ρ < 3 → (cells.getD ρ []).length = 9) →
      (placeAll asgn nums cs cells).length = 3 ∧
      (∀ ρ, ρ < 3 → ((placeAll asgn nums cs cells).getD ρ []).length = 9) ∧
      (∀ r c', (c' ∈ cs →
        cellAt (placeAll asgn nums cs cells) r c' =
          match lookupIdx (List.insertionSort (fun a b => a ≤ b) (asgn.getD c' []))
              (nums.getD c' []) r with
          | some v => some v
          | none => cellAt cells r c') ∧
        (c' ∉ cs → cellAt (placeAll asgn nums cs cells) r c' = cellAt cells r c')) := by
  intro cs
  induction cs with
  | nil =>
    intro cells _ _ hlen hrow
    exact ⟨hlen, hrow, fun r c' => ⟨fun hx => absurd hx (List.not_mem_nil c'), fun _ => rfl⟩⟩
  | cons c0 rest ih =>
    intro cells hnd hmem hlen hrow
    have hc0 : c0 < 9 := hmem c0 (by simp)
    have hp0 := hprops c0 hc0
    have hfold : placeAll asgn nums (c0 :: rest) cells =
        placeAll asgn nums rest (placeCol cells c0
          (List.insertionSort (fun a b => a ≤ b) (asgn.getD c0 [])) (nums.getD c0 [])) := rfl
    set cells1 := placeCol cells c0
      (List.insertionSort (fun a b => a ≤ b) (asgn.getD c0 [])) (nums.getD c0 []) with hcells1
    have hlen1 : cells1.length = 3 := by
      rw [hcells1, placeCol_length, hlen]
    have hrow1 : ∀ ρ, ρ < 3 → (cells1.getD ρ []).length = 9 := by
      intro ρ hρ
      rw [hcells1, placeCol_row_length]
      exact hrow ρ hρ
    have hihx := ih cells1 (List.nodup_cons.mp hnd).2
      (fun x hx => hmem x (by simp [hx])) hlen1 hrow1
    rw [hfold]
    refine ⟨hihx.1, hihx.2.1, ?_⟩
    intro r c'
    have hplace0 : cellAt cells1 r c0 =
        match lookupIdx (List.insertionSort (fun a b => a ≤ b) (asgn.getD c0 []))
            (nums.getD c0 []) r with
        | some v => some v
        | none => cellAt cells r c0 := by
      rw [hcells1]
      exact placeCol_cellAt_col cells c0 _ _ hp0.1 hp0.2.2
        (by intro ρ hρ; rw [hlen]; exact hp0.2.1 ρ hρ)
        (by
          intro ρ hρ
          rw [hrow ρ (hp0.2.1 ρ hρ)]
          exact hc0) r
    constructor
    · intro hx
      rcases List.mem_cons.mp hx with hh | hh
      · subst hh
        have hnotin : c' ∉ rest := (List.nodup_cons.mp hnd).1
        rw [(hihx.2.2 r c').2 hnotin]
        exact hplace0
      · rw [(hihx.2.2 r c').1 hh]
        have hne : c' ≠ c0 := by
          intro heq
          subst heq
          exact (List.nodup_cons.mp hnd).1 hh
        cases hlk : lookupIdx (List.insertionSort (fun a b => a ≤ b) (asgn.getD c' []))
            (nums.getD c' []) r with
        | some v => rfl
        | none =>
          rw [hcells1]
          exact placeCol_cellAt_ne cells c0 c' hne _ _ r
    · intro hx
      have hnr : c' ∉ rest := fun hh => hx (by simp [hh])
      have hne : c' ≠ c0 := fun heq => hx (by simp [heq])
      rw [(hihx.2.2 r c').2 hnr, hcells1]
      exact placeCol_cellAt_ne cells c0 c' hne _ _ r

/-- The built cell matrix: 3 rows of 9 cells whose cell (r, c) is exactly the
lookupIdx placement of column c at row r. -/
theorem buildCells_spec (asgn nums : List (List Nat))
    (hprops : ∀ c, c < 9 → (List.insertionSort (fun a b => a ≤ b) (asgn.getD c [])).Nodup ∧
      (∀ ρ ∈ List.insertionSort (fun a b => a ≤ b) (asgn.getD c []), ρ < 3) ∧
      (List.insertionSort (fun a b => a ≤ b) (asgn.getD c [])).length =
        (nums.getD c []).length) :
    (buildCells asgn nums).length = 3 ∧
    (∀ ρ, ρ < 3 → ((buildCells asgn nums).getD ρ []).length = 9) ∧
    (∀ r c, c < 9 → cellAt (buildCells asgn nums) r c =
      lookupIdx (List.insertionSort (fun a b => a ≤ b) (asgn.getD c []))
        (nums.getD c []) r) := by
  have hinit_len : (List.replicate 3 (List.replicate 9 (none : Option Nat))).length = 3 := by
    simp
  have hinit_row : ∀ ρ, ρ < 3 →
      ((List.replicate 3 (List.replicate 9 (none : Option Nat))).getD ρ []).length = 9 := by
    intro ρ hρ
    rw [getD_replicate_self 3 _ ρ [] hρ]
    simp
  have hinit_cell : ∀ r c,
      cellAt (List.replicate 3 (List.replicate 9 (none : Option Nat))) r c = none := by
    intro r c
    unfold cellAt
    by_cases hr : r < 3
    · rw [getD_replicate_self 3 _ r [] hr]
      by_cases hc : c < 9
      · rw [getD_replicate_self 9 _ c none hc]
      · rw [List.getD_eq_getElem?_getD, List.getElem?_replicate, if_neg hc]
        rfl
    · have hx : (List.replicate 3 (List.replicate 9 (none : Option Nat))).getD r [] = [] := by
        rw [List.getD_eq_getElem?_getD, List.getElem?_replicate, if_neg hr]
        rfl
      rw [hx]
      rfl
  have hb : buildCells asgn nums =
      placeAll asgn nums (List.range 9) (List.replicate 3 (List.replicate 9 none)) := rfl
  have hspec := placeAll_spec asgn nums hprops (List.range 9)
    (List.replicate 3 (List.replicate 9 none)) (List.nodup_range 9)
    (fun c hc => List.mem_range.mp hc) hinit_len hinit_row
  rw [hb]
  refine ⟨hspec.1, hspec.2.1, ?_⟩
  intro r c hc
  have := (hspec.2.2 r c).1 (List.mem_range.mpr hc)
  rw [this, hinit_cell r c]
  cases lookupIdx (List.insertionSort (fun a b => a ≤ b) (asgn.getD c []))
      (nums.getD c []) r with
  | some v => rfl
  | none => rfl

/-! ## Assembling the grid facts -/

/-- A list of known length whose getD values are f is the mapped range. -/
theorem eq_range_map_of_getD {α : Type} (l : List α) (n : Nat) (f : Nat → α) (d : α)
    (hlen : l.length = n) (h : ∀ i, i < n → l.getD i d = f i) :
    l = (List.range n).map f := by
  apply List.ext_getElem?
  intro i
  by_cases hi : i < n
  · rw [List.getElem?_map, List.getElem?_range hi]
    rw [List.getElem?_eq_getElem (by omega)]
    have hgd := h i hi
    rw [List.getD_eq_getElem?_getD, List.getElem?_eq_getElem (by omega)] at hgd
    simp only [Option.getD_some] at hgd
    simp [hgd]
  · rw [List.getElem?_map]
    rw [List.getElem?_eq_none (by omega), List.getElem?_eq_none (by simp [List.length_range]; omega)]
    rfl

/-- Sums of 0/1 indicators count the satisfied predicate. -/
theorem sum_map_ite_countP {α : Type} (l : List α) (p : α → Bool) (f : α → Nat)
    (hf : ∀ a ∈ l, f a = if p a then 1 else 0) :
    (l.map f).sum = l.countP p := by
  induction l with
  | nil => simp
  | cons x xs ih =>
    simp only [List.map_cons, List.sum_cons, List.countP_cons]
    rw [hf x (by simp), ih (fun a ha => hf a (by simp [ha]))]
    by_cases hp : p x
    · simp [hp]
      omega
    · simp [hp]

/-- Counting the members of a duplicate-free list of rows below n over the
range recovers its length. -/
theorem countP_range_mem (l : List Nat) (n : Nat) (hnd : l.Nodup)
    (hmem : ∀ x ∈ l, x < n) :
    (List.range n).countP (fun r => decide (r ∈ l)) = l.length := by
  rw [List.countP_eq_length_filter]
  have hnd2 : ((List.range n).filter (fun r => decide (r ∈ l))).Nodup :=
    (List.filter_sublist _).nodup (List.nodup_range n)
  have hset : ((List.range n).filter (fun r => decide (r ∈ l))).toFinset = l.toFinset := by
    apply Finset.ext
    intro a
    rw [List.mem_toFinset, List.mem_toFinset, List.mem_filter]
    constructor
    · intro h
      simpa using h.2
    · intro h
      exact ⟨List.mem_range.mpr (hmem a h), by simpa using h⟩
  have h1 := List.toFinset_card_of_nodup hnd2
  have h2 := List.toFinset_card_of_nodup hnd
  rw [hset] at h1
  omega

/-- Every number of a band lies in [1, 90]. -/
theorem bandList_mem_bounds (c n : Nat) (hc : c < 9) (hn : n ∈ bandList c) :
    1 ≤ n ∧ n ≤ 90 := by
  interval_cases c <;>
    (simp [bandList, colRanges, List.mem_range'_1] at hn; omega)

/-- The bands are pairwise disjoint: a number determines its column. -/
theorem band_determines (c c' n : Nat) (hc : c < 9) (hc' : c' < 9)
    (h : n ∈ bandList c) (h' : n ∈ bandList c') : c = c' := by
  interval_cases c <;> interval_cases c' <;>
    first
      | rfl
      | (exfalso
         simp [bandList, colRanges, List.mem_range'_1] at h h'
         omega)

/-- The rows a successful generation builds, in closed form: row r holds, in
column c, the lookupIdx placement of that column. -/
theorem buildGrid_rows (asgn nums : List (List Nat))
    (hprops : ∀ c, c < 9 → (List.insertionSort (fun a b => a ≤ b) (asgn.getD c [])).Nodup ∧
      (∀ ρ ∈ List.insertionSort (fun a b => a ≤ b) (asgn.getD c []), ρ < 3) ∧
      (List.insertionSort (fun a b => a ≤ b) (asgn.getD c [])).length =
        (nums.getD c []).length) :
    (buildGrid asgn nums).rows = (List.range 3).map (fun r =>
      TicketRow.mk
        ((List.range 9).map (fun c =>
          lookupIdx (List.insertionSort (fun a b => a ≤ b) (asgn.getD c []))
            (nums.getD c []) r))
        (List.replicate 9 false)) := by
  have hbc := buildCells_spec asgn nums hprops
  have hbcmap : buildCells asgn nums =
      (List.range 3).map (fun r => (buildCells asgn nums).getD r []) :=
    eq_range_map_of_getD _ 3 _ [] hbc.1 (fun i _ => rfl)
  show (buildCells asgn nums).map _ = _
  rw [hbcmap, List.map_map]
  apply List.map_congr_left
  intro r hr
  have hr3 : r < 3 := List.mem_range.mp hr
  simp only [Function.comp]
  congr 1
  apply eq_range_map_of_getD _ 9 _ none (hbc.2.1 r hr3)
  intro i hi
  exact hbc.2.2 r i hi

/-- The numbers of each built row, in closed form. -/
theorem buildGrid_rowNums (asgn nums : List (List Nat)) (r : Nat) :
    rowNums (TicketRow.mk
        ((List.range 9).map (fun c =>
          lookupIdx (List.insertionSort (fun a b => a ≤ b) (asgn.getD c []))
            (nums.getD c []) r))
        (List.replicate 9 false)) =
      (List.range 9).filterMap (fun c =>
        lookupIdx (List.insertionSort (fun a b => a ≤ b) (asgn.getD c []))
          (nums.getD c []) r) := by
  show List.filterMap id (List.map _ _) = _
  rw [List.filterMap_map]
  rfl

/-- lookupIdx with no numbers finds nothing. -/
theorem lookupIdx_nil_right (rs : List Nat) (r : Nat) : lookupIdx rs [] r = none := by
  cases rs <;> rfl

/-- Each built row holds exactly as many numbers as columns picked it: 5. -/
theorem buildGrid_row_count (counts : List Nat) (asgn nums : List (List Nat)) (r : Nat)
    (hasgn_len : asgn.length = 9)
    (hasgn : ∀ c, c < 9 → (asgn.getD c []).Nodup ∧ (∀ ρ ∈ asgn.getD c [], ρ < 3) ∧
      (asgn.getD c []).length = counts.getD c 0)
    (hnums : ∀ c, c < 9 → (nums.getD c []).length = counts.getD c 0)
    (hsum5 : (asgn.map (fun l => l.count r)).sum = 5) :
    ((List.range 9).filterMap (fun c =>
      lookupIdx (List.insertionSort (fun a b => a ≤ b) (asgn.getD c []))
        (nums.getD c []) r)).length = 5 := by
  rw [List.length_filterMap_eq_countP]
  rw [List.countP_congr (q := fun c => decide (r ∈ asgn.getD c []))]
  · have hsum : ((List.range 9).map (fun c => (asgn.getD c []).count r)).sum =
        (asgn.map (fun l => l.count r)).sum := by
      conv_rhs => rw [eq_range_map_of_getD asgn 9 (fun c => asgn.getD c []) [] hasgn_len
        (fun i _ => rfl)]
      rw [List.map_map]
      rfl
    rw [← sum_map_ite_countP (List.range 9) (fun c => decide (r ∈ asgn.getD c []))
      (fun c => (asgn.getD c []).count r) ?_]
    · rw [hsum, hsum5]
    · intro c hc
      dsimp only
      by_cases hm : r ∈ asgn.getD c []
      · rw [List.count_eq_one_of_mem (hasgn c (List.mem_range.mp hc)).1 hm,
          if_pos (decide_eq_true hm)]
      · rw [List.count_eq_zero_of_not_mem hm,
          if_neg (by simpa using hm)]
  · intro c hc
    have hc9 : c < 9 := List.mem_range.mp hc
    have hlen : (List.insertionSort (fun a b => a ≤ b) (asgn.getD c [])).length =
        (nums.getD c []).length := by
      rw [(List.perm_insertionSort _ _).length_eq, (hasgn c hc9).2.2, hnums c hc9]
    rw [lookupIdx_isSome _ _ r hlen]
    rw [(List.perm_insertionSort (fun a b => a ≤ b) (asgn.getD c [])).mem_iff]
    simp

/-- The column lists of a built grid, in closed form. -/
theorem buildGrid_colCells (asgn nums : List (List Nat)) (c : Nat) (hc : c < 9)
    (hprops : ∀ c, c < 9 → (List.insertionSort (fun a b => a ≤ b) (asgn.getD c [])).Nodup ∧
      (∀ ρ ∈ List.insertionSort (fun a b => a ≤ b) (asgn.getD c []), ρ < 3) ∧
      (List.insertionSort (fun a b => a ≤ b) (asgn.getD c [])).length =
        (nums.getD c []).length) :
    colCells (buildGrid asgn nums) c = (List.range 3).filterMap (fun r =>
      lookupIdx (List.insertionSort (fun a b => a ≤ b) (asgn.getD c []))
        (nums.getD c []) r) := by
  unfold colCells
  rw [buildGrid_rows asgn nums hprops, List.filterMap_map]
  apply List.filterMap_congr
  intro r hr
  simp only [Function.comp]
  rw [List.getD_eq_getElem?_getD, List.getElem?_map, List.getElem?_range hc]
  rfl

/-- The grid built from successful counts, column numbers and row assignment
satisfies every structural invariant, holds pairwise-distinct numbers, and
every number comes from one of the column lists. -/
theorem buildGrid_ok (counts : List Nat) (asgn nums : List (List Nat))
    (hcbound : ∀ i, i < 9 → 1 ≤ counts.getD i 0 ∧ counts.getD i 0 ≤ 3)
    (hasgn_len : asgn.length = 9)
    (hasgn : ∀ c, c < 9 → (asgn.getD c []).Nodup ∧ (∀ ρ ∈ asgn.getD c [], ρ < 3) ∧
      (asgn.getD c []).length = counts.getD c 0)
    (hsum5 : ∀ r, r < 3 → (asgn.map (fun l => l.count r)).sum = 5)
    (hnums_len : nums.length = 9)
    (hnums : ∀ c, c < 9 → (nums.getD c []).length = counts.getD c 0 ∧
      List.Pairwise (fun a b => a < b) (nums.getD c []) ∧
      ∀ v ∈ nums.getD c [], v ∈ bandList c) :
    gridOK (buildGrid asgn nums) = true ∧
    ((buildGrid asgn nums).rows.flatMap rowNums).Nodup ∧
    (∀ v ∈ (buildGrid asgn nums).rows.flatMap rowNums,
      ∃ c, c < 9 ∧ v ∈ nums.getD c []) := by
  have hprops : ∀ c, c < 9 →
      (List.insertionSort (fun a b => a ≤ b) (asgn.getD c [])).Nodup ∧
      (∀ ρ ∈ List.insertionSort (fun a b => a ≤ b) (asgn.getD c []), ρ < 3) ∧
      (List.insertionSort (fun a b => a ≤ b) (asgn.getD c [])).length =
        (nums.getD c []).length := by
    intro c hc
    have hperm := List.perm_insertionSort (fun a b => a ≤ b) (asgn.getD c [])
    refine ⟨hperm.symm.nodup (hasgn c hc).1, ?_, ?_⟩
    · intro ρ hρ
      exact (hasgn c hc).2.1 ρ (hperm.mem_iff.mp hρ)
    · rw [hperm.length_eq, (hasgn c hc).2.2, (hnums c hc).1]
  have hsrt_strict : ∀ c, c < 9 →
      List.Pairwise (fun a b => a < b)
        (List.insertionSort (fun a b => a ≤ b) (asgn.getD c [])) := by
    intro c hc
    have hsorted := List.sorted_insertionSort (fun a b => a ≤ b) (asgn.getD c [])
    have hne : List.Pairwise (fun a b : Nat => a ≠ b) _ := (hprops c hc).1
    exact (List.Pairwise.and hsorted hne).imp (fun hab => lt_of_le_of_ne hab.1 hab.2)
  have hout : ∀ c, 9 ≤ c → nums.getD c [] = [] := by
    intro c hc
    rw [List.getD_eq_getElem?_getD, List.getElem?_eq_none (by omega)]
    rfl
  have hlu_some : ∀ c r v,
      lookupIdx (List.insertionSort (fun a b => a ≤ b) (asgn.getD c []))
        (nums.getD c []) r = some v → c < 9 ∧ v ∈ nums.getD c [] := by
    intro c r v hv
    by_cases hc : c < 9
    · exact ⟨hc, lookupIdx_mem _ _ _ _ hv⟩
    · rw [hout c (by omega), lookupIdx_nil_right] at hv
      exact absurd hv (by simp)
  have hrows := buildGrid_rows asgn nums hprops
  have hlen_rows : (buildGrid asgn nums).rows.length = 3 := by
    rw [hrows]
    simp
  have hrow5 : ∀ r, r < 3 →
      ((List.range 9).filterMap (fun c =>
        lookupIdx (List.insertionSort (fun a b => a ≤ b) (asgn.getD c []))
          (nums.getD c []) r)).length = 5 := by
    intro r hr
    exact buildGrid_row_count counts asgn nums r hasgn_len hasgn
      (fun c hc => (hnums c hc).1) (hsum5 r hr)
  have hflat : (buildGrid asgn nums).rows.flatMap rowNums =
      (List.range 3).flatMap (fun r => (List.range 9).filterMap (fun c =>
        lookupIdx (List.insertionSort (fun a b => a ≤ b) (asgn.getD c []))
          (nums.getD c []) r)) := by
    rw [hrows, List.flatMap_map]
    exact congrArg _ (funext (fun r => buildGrid_rowNums asgn nums r))
  have hrvals_nodup : ∀ r : Nat, ((List.range 9).filterMap (fun c =>
      lookupIdx (List.insertionSort (fun a b => a ≤ b) (asgn.getD c []))
        (nums.getD c []) r)).Nodup := by
    intro r
    apply List.Nodup.filterMap ?_ (List.nodup_range 9)
    intro a a' b hb hb'
    have h1 := hlu_some a r b (Option.mem_def.mp hb)
    have h2 := hlu_some a' r b (Option.mem_def.mp hb')
    exact band_determines a a' b h1.1 h2.1
      ((hnums a h1.1).2.2 b h1.2) ((hnums a' h2.1).2.2 b h2.2)
  have hnodup : ((buildGrid asgn nums).rows.flatMap rowNums).Nodup := by
    rw [hflat, List.nodup_flatMap]
    refine ⟨fun r _ => hrvals_nodup r, ?_⟩
    apply (List.pairwise_lt_range 3).imp
    intro r r' hrr'
    intro v hv hv'
    rcases List.mem_filterMap.mp hv with ⟨c, hcr, hvc⟩
    rcases List.mem_filterMap.mp hv' with ⟨c', hcr', hvc'⟩
    have h1 := hlu_some c r v hvc
    have h2 := hlu_some c' r' v hvc'
    have hcc : c = c' := band_determines c c' v h1.1 h2.1
      ((hnums c h1.1).2.2 v h1.2) ((hnums c' h2.1).2.2 v h2.2)
    subst hcc
    have hnd : (nums.getD c []).Nodup :=
      ((hnums c h1.1).2.1).imp (fun hab => ne_of_lt hab)
    exact lookupIdx_ne _ _ hnd r r' v v hvc hvc' (by omega) rfl
  have hmemc : ∀ v ∈ (buildGrid asgn nums).rows.flatMap rowNums,
      ∃ c, c < 9 ∧ v ∈ nums.getD c [] := by
    intro v hv
    rw [hflat] at hv
    rcases List.mem_flatMap.mp hv with ⟨r, hr, hvr⟩
    rcases List.mem_filterMap.mp hvr with ⟨c, hcr, hvc⟩
    have := hlu_some c r v hvc
    exact ⟨c, this.1, this.2⟩
  refine ⟨?_, hnodup, hmemc⟩
  unfold gridOK
  rw [Bool.and_eq_true, Bool.and_eq_true, Bool.and_eq_true]
  refine ⟨⟨⟨?_, ?_⟩, ?_⟩, ?_⟩
  · simp [hlen_rows]
  · rw [List.all_eq_true]
    intro row hrow
    rw [hrows] at hrow
    rcases List.mem_map.mp hrow with ⟨r, hr, rfl⟩
    have hr3 := List.mem_range.mp hr
    rw [Bool.and_eq_true]
    constructor
    · simp
    · rw [buildGrid_rowNums asgn nums r, hrow5 r hr3]
      rfl
  · rw [hflat]
    rw [show List.range 3 = [0, 1, 2] from rfl]
    simp only [List.flatMap_cons, List.flatMap_nil, List.append_nil, List.length_append]
    rw [decide_eq_true_eq]
    rw [hrow5 0 (by omega), hrow5 1 (by omega), hrow5 2 (by omega)]
  · rw [List.all_eq_true]
    intro c hc
    have hc9 := List.mem_range.mp hc
    have hcol := buildGrid_colCells asgn nums c hc9 hprops
    have hcol_len : (colCells (buildGrid asgn nums) c).length = counts.getD c 0 := by
      rw [hcol, List.length_filterMap_eq_countP]
      rw [List.countP_congr (q := fun r => decide (r ∈ asgn.getD c []))]
      · rw [countP_range_mem (asgn.getD c []) 3 (hasgn c hc9).1 (hasgn c hc9).2.1]
        exact (hasgn c hc9).2.2
      · intro r hr
        rw [lookupIdx_isSome _ _ r (hprops c hc9).2.2]
        rw [(List.perm_insertionSort (fun a b => a ≤ b) (asgn.getD c [])).mem_iff]
        simp
    rw [Bool.and_eq_true, Bool.and_eq_true, Bool.and_eq_true]
    refine ⟨⟨⟨?_, ?_⟩, ?_⟩, ?_⟩
    · rw [decide_eq_true_eq, hcol_len]
      exact (hcbound c hc9).1
    · rw [decide_eq_true_eq, hcol_len]
      exact (hcbound c hc9).2
    · rw [decide_eq_true_eq, hcol]
      rw [List.pairwise_filterMap]
      apply (List.pairwise_lt_range 3).imp
      intro a b hab
      intro va hva vb hvb
      exact lookupIdx_strictMono _ _ (hsrt_strict c hc9) (hnums c hc9).2.1 a b va vb
        (Option.mem_def.mp hva) (Option.mem_def.mp hvb) hab
    · rw [List.all_eq_true]
      intro v hv
      rw [hcol] at hv
      rcases List.mem_filterMap.mp hv with ⟨r, hr, hvr⟩
      rw [decide_eq_true_eq]
      exact (hnums c hc9).2.2 v (lookupIdx_mem _ _ _ _ hvr)

/-! ## Generator-level specifications -/

/-- getD over the range list. -/
theorem getD_range (n i : Nat) (h : i < n) : (List.range n).getD i 0 = i := by
  rw [List.getD_eq_getElem?_getD, List.getElem?_range h]
  rfl

/-- Each band is a well-formed interval. -/
theorem colRanges_le (c : Nat) :
    (colRanges.getD c (0, 0)).1 ≤ (colRanges.getD c (0, 0)).2 := by
  by_cases hc : c < 9
  · interval_cases c <;> decide
  · rw [List.getD_eq_getElem?_getD, List.getElem?_eq_none (by simp [colRanges]; omega)]
    exact Nat.le_refl 0

/-- Every grid redis.ts generateUniqueGrid returns satisfies the invariants,
holds pairwise-distinct numbers, and avoids the exclusion set. -/
theorem generateUniqueGrid_spec (exclude : List Nat) (rand : GridRand)
    (hcs : ∀ c l, List.Perm (rand.colShuf c l) l)
    (hat : ∀ f ∈ rand.attempts, ∀ c l, List.Perm (f c l) l)
    (g : TicketGrid) (h : generateUniqueGrid exclude rand = some g) :
    gridOK g = true ∧
    (g.rows.flatMap rowNums).Nodup ∧
    (∀ v ∈ g.rows.flatMap rowNums, v ∉ exclude ∧ 1 ≤ v ∧ v ≤ 90) := by
  unfold generateUniqueGrid at h
  cases hbump : bumpCounts (List.replicate 9 1) 6 rand.bumps with
  | none => rw [hbump] at h; simp at h
  | some counts =>
    rw [hbump] at h
    dsimp only at h
    cases hcols : collectCols (pickOneColUnique exclude rand.colShuf counts) (List.range 9) with
    | none => rw [hcols] at h; simp at h
    | some nums =>
      rw [hcols] at h
      dsimp only at h
      cases hrd : rowDistribute counts (rand.attempts.take 100) with
      | none => rw [hrd] at h; simp at h
      | some asgn =>
        rw [hrd] at h
        dsimp only at h
        simp only [Option.some.injEq] at h
        subst h
        have hcspec := bumpCounts_spec rand.bumps (List.replicate 9 1) 6 counts hbump
          (by simp)
          (fun i hi => by rw [getD_replicate_self 9 1 i 0 hi])
          (fun i hi => by rw [getD_replicate_self 9 1 i 0 hi]; omega)
        have hcolspec := collectCols_spec _ _ _ hcols
        have hnums_len : nums.length = 9 := by
          have := hcolspec.1
          simpa using this
        have hnums : ∀ c, c < 9 → (nums.getD c []).length = counts.getD c 0 ∧
            List.Pairwise (fun a b => a < b) (nums.getD c []) ∧
            (∀ v ∈ nums.getD c [], v ∈ bandList c ∧ v ∉ exclude) := by
          intro c hc
          have hcc := hcolspec.2 c (by simpa using hc)
          rw [getD_range 9 c hc] at hcc
          have := pickOneColUnique_spec exclude rand.colShuf hcs counts c _ hcc
          exact ⟨this.1, this.2.1, this.2.2⟩
        have hrdspec := rowDistribute_spec counts (rand.attempts.take 100)
          (fun f hf => hat f ((List.take_sublist _ _).mem hf)) asgn hrd
        have hmain := buildGrid_ok counts asgn nums
          (fun i hi => (hcspec.2.1 i hi))
          hrdspec.1 hrdspec.2.1 hrdspec.2.2 hnums_len
          (fun c hc => ⟨(hnums c hc).1, (hnums c hc).2.1,
            fun v hv => ((hnums c hc).2.2 v hv).1⟩)
        refine ⟨hmain.1, hmain.2.1, ?_⟩
        intro v hv
        rcases hmain.2.2 v hv with ⟨c, hc, hvc⟩
        have hband := ((hnums c hc).2.2 v hvc)
        have hb := bandList_mem_bounds c v hc hband.1
        exact ⟨hband.2, hb.1, hb.2⟩

/-- Every grid one server.js generateGrid body returns satisfies the
invariants. -/
theorem serverGenerateGridOnce_spec (rand : ServerGridRand)
    (hat : ∀ f ∈ rand.attempts, ∀ c l, List.Perm (f c l) l)
    (g : TicketGrid) (h : serverGenerateGridOnce rand = some g) :
    gridOK g = true := by
  unfold serverGenerateGridOnce at h
  cases hbump : bumpCounts (List.replicate 9 1) 6 rand.bumps with
  | none => rw [hbump] at h; simp at h
  | some counts =>
    rw [hbump] at h
    dsimp only at h
    cases hcols : collectCols (pickOneColSample rand.picks counts) (List.range 9) with
    | none => rw [hcols] at h; simp at h
    | some nums =>
      rw [hcols] at h
      dsimp only at h
      cases hrd : rowDistribute counts (rand.attempts.take 100) with
      | none => rw [hrd] at h; simp at h
      | some asgn =>
        rw [hrd] at h
        dsimp only at h
        simp only [Option.some.injEq] at h
        subst h
        have hcspec := bumpCounts_spec rand.bumps (List.replicate 9 1) 6 counts hbump
          (by simp)
          (fun i hi => by rw [getD_replicate_self 9 1 i 0 hi])
          (fun i hi => by rw [getD_replicate_self 9 1 i 0 hi]; omega)
        have hcolspec := collectCols_spec _ _ _ hcols
        have hnums_len : nums.length = 9 := by
          have := hcolspec.1
          simpa using this
        have hnums : ∀ c, c < 9 → (nums.getD c []).length = counts.getD c 0 ∧
            List.Pairwise (fun a b => a < b) (nums.getD c []) ∧
            ∀ v ∈ nums.getD c [], v ∈ bandList c := by
          intro c hc
          have hcc := hcolspec.2 c (by simpa using hc)
          rw [getD_range 9 c hc] at hcc
          exact pickOneColSample_spec rand.picks counts c (colRanges_le c) _ hcc
        have hrdspec := rowDistribute_spec counts (rand.attempts.take 100)
          (fun f hf => hat f ((List.take_sublist _ _).mem hf)) asgn hrd
        exact (buildGrid_ok counts asgn nums
          (fun i hi => (hcspec.2.1 i hi))
          hrdspec.1 hrdspec.2.1 hrdspec.2.2 hnums_len hnums).1

/-- The retrying wrapper only ever returns grids produced by a successful
body run. -/
theorem serverGenerateGrid_all (srands : List ServerGridRand)
    (hsat : ∀ sr ∈ srands, ∀ f ∈ sr.attempts, ∀ c l, List.Perm (f c l) l) :
    (serverGenerateGrid srands).all gridOK = true := by
  induction srands with
  | nil => rfl
  | cons sr rest ih =>
    simp only [serverGenerateGrid]
    cases honce : serverGenerateGridOnce sr with
    | some g =>
      have := serverGenerateGridOnce_spec sr (hsat sr (by simp)) g honce
      simpa [Option.all] using this
    | none =>
      exact ih (fun sr2 h2 => hsat sr2 (by simp [h2]))

/-! ## C2: every generated grid satisfies the structural invariants -/

/-- C2: for every run of redis.ts generateUniqueGrid (any exclusion set) and
of server.js generateGrid, under any resolution of the randomness (shuffles
permute their input), the returned grid - when one is returned - has exactly
15 numbers, 5 per row, 1 to 3 per column, strictly increasing numbers within
each column, and every number inside its column's decade band. -/
theorem generated_grid_invariants (exclude : List Nat) (rand : GridRand)
    (srands : List ServerGridRand)
    (hcs : ∀ c l, List.Perm (rand.colShuf c l) l)
    (hat : ∀ f ∈ rand.attempts, ∀ c l, List.Perm (f c l) l)
    (hsat : ∀ sr ∈ srands, ∀ f ∈ sr.attempts, ∀ c l, List.Perm (f c l) l) :
    (generateUniqueGrid exclude rand).all gridOK = true ∧
    (serverGenerateGrid srands).all gridOK = true := by
  constructor
  · cases hg : generateUniqueGrid exclude rand with
    | none => rfl
    | some g =>
      have := generateUniqueGrid_spec exclude rand hcs hat g hg
      simpa [Option.all] using this.1
  · exact serverGenerateGrid_all srands hsat

/-- C2 witness: a concrete randomness produces a grid from both generators,
and the invariants hold on them. -/
theorem generated_grid_invariants_witness :
    (generateUniqueGrid [] sampleGridRand).isSome = true ∧
    (serverGenerateGrid [sampleServerRand]).isSome = true ∧
    (generateUniqueGrid [] sampleGridRand).all gridOK = true ∧
    (serverGenerateGrid [sampleServerRand]).all gridOK = true := by
  have hcs : ∀ c l, List.Perm (sampleGridRand.colShuf c l) l := fun _ l => List.Perm.refl l
  have hat : ∀ f ∈ sampleGridRand.attempts, ∀ c l, List.Perm (f c l) l := by
    intro f hf
    have hfi : f = idShuf := by simpa [sampleGridRand] using hf
    subst hfi
    exact fun _ l => List.Perm.refl l
  have hsat : ∀ sr ∈ [sampleServerRand], ∀ f ∈ sr.attempts, ∀ c l, List.Perm (f c l) l := by
    intro sr hsr f hf
    have hsr1 : sr = sampleServerRand := by simpa using hsr
    subst hsr1
    have hfi : f = idShuf := by simpa [sampleServerRand] using hf
    subst hfi
    exact fun _ l => List.Perm.refl l
  have hmain := generated_grid_invariants [] sampleGridRand [sampleServerRand] hcs hat hsat
  exact ⟨by rfl, by rfl, hmain.1, hmain.2⟩

/-! ## C3: numbers across the grids of one redis.ts ticket are distinct -/

/-- The loop invariant of redis.ts generateTicket: the numbers on the grids
collected so far stay pairwise distinct, because every number already placed
is in the exclusion set and every new grid avoids that set. -/
theorem generateTicketGo_nodup (rands : List GridRand) :
    ∀ (exclude : List Nat) (grids : List TicketGrid),
    (∀ ra ∈ rands, (∀ c l, List.Perm (ra.colShuf c l) l) ∧
      (∀ f ∈ ra.attempts, ∀ c l, List.Perm (f c l) l)) →
    (grids.flatMap (fun g => g.rows.flatMap rowNums)).Nodup →
    (∀ v ∈ grids.flatMap (fun g => g.rows.flatMap rowNums), v ∈ exclude) →
    ((generateTicketGo rands exclude grids).flatMap
      (fun g => g.rows.flatMap rowNums)).Nodup := by
  induction rands with
  | nil =>
    intro exclude grids _ hnd _
    exact hnd
  | cons ra rest ih =>
    intro exclude grids hperm hnd hexc
    simp only [generateTicketGo]
    by_cases h3 : grids.length < 3
    · rw [if_pos h3]
      cases hg : generateUniqueGrid exclude ra with
      | none =>
        exact ih exclude grids (fun x hx => hperm x (by simp [hx])) hnd hexc
      | some g =>
        have hgspec := generateUniqueGrid_spec exclude ra
          (hperm ra (by simp)).1 (hperm ra (by simp)).2 g hg
        have hval0 : ∀ v ∈ g.rows.flatMap rowNums, v ∈ usedNumbersOf g := by
          intro v hv
          have hv1 : 1 ≤ v := (hgspec.2.2 v hv).2.1
          rcases List.mem_flatMap.mp hv with ⟨row, hrow, hvr⟩
          unfold usedNumbersOf
          rw [List.mem_flatMap]
          refine ⟨row, hrow, ?_⟩
          rw [List.mem_filter]
          refine ⟨hvr, by simp; omega⟩
        have hflat_app : ((grids ++ [g]).flatMap (fun g2 => g2.rows.flatMap rowNums)) =
            grids.flatMap (fun g2 => g2.rows.flatMap rowNums) ++ g.rows.flatMap rowNums := by
          rw [List.flatMap_append]
          simp
        apply ih
        · intro x hx
          exact hperm x (by simp [hx])
        · rw [hflat_app, List.nodup_append]
          refine ⟨hnd, hgspec.2.1, ?_⟩
          intro a ha hag
          exact ((hgspec.2.2 a hag).1) (hexc a ha)
        · intro v hv
          rw [hflat_app] at hv
          rw [List.mem_append]
          rcases List.mem_append.mp hv with hv | hv
          · exact Or.inl (hexc v hv)
          · exact Or.inr (hval0 v hv)
    · rw [if_neg h3]
      exact hnd

/-- C3 (for redis.ts generateTicket): the numbers across all grids of a
generated ticket are pairwise distinct, under any resolution of the
randomness. -/
theorem generateTicket_distinct (rands : List GridRand)
    (h : ∀ ra ∈ rands, (∀ c l, List.Perm (ra.colShuf c l) l) ∧
      (∀ f ∈ ra.attempts, ∀ c l, List.Perm (f c l) l)) :
    (ticketNumbers (generateTicket rands)).Nodup := by
  show ((generateTicketGo (rands.take 50) [] []).flatMap
    (fun g => g.rows.flatMap rowNums)).Nodup
  exact generateTicketGo_nodup (rands.take 50) [] []
    (fun ra hra => h ra ((List.take_sublist _ _).mem hra))
    (by simp) (by simp)

/-- C3 witness: a concrete randomness yields a full 45-number ticket, and its
numbers are distinct. -/
theorem generateTicket_distinct_witness :
    (ticketNumbers (generateTicket (List.replicate 50 sampleGridRand))).length = 45 ∧
    (ticketNumbers (generateTicket (List.replicate 50 sampleGridRand))).Nodup :=
  ⟨by rfl, generateTicket_distinct (List.replicate 50 sampleGridRand) (by
    intro ra hra
    have hra1 : ra = sampleGridRand := List.eq_of_mem_replicate hra
    subst hra1
    refine ⟨fun _ l => List.Perm.refl l, ?_⟩
    intro f hf
    have hfi : f = idShuf := by simpa [sampleGridRand] using hf
    subst hfi
    exact fun _ l => List.Perm.refl l)⟩

/-- C3 counterexample: the server.js ticket generator builds its 3 grids
independently, so under a concrete randomness the same numbers recur across
grids - the number 1 appears three times on one ticket, refuting pairwise
distinctness for the server.js generator. -/
theorem serverGenerateTicket_repeats :
    (¬ (ticketNumbers (serverGenerateTicket
      [[sampleServerRand], [sampleServerRand], [sampleServerRand]])).Nodup) ∧
    (ticketNumbers (serverGenerateTicket
      [[sampleServerRand], [sampleServerRand], [sampleServerRand]])).count 1 = 3 := by
  constructor
  · decide
  · rfl

/-! ## C9: bounded retries and the degraded-result policy -/

/-- The ticket loop never accumulates more than 3 grids. -/
theorem generateTicketGo_le (rands : List GridRand) :
    ∀ (exclude : List Nat) (grids : List TicketGrid), grids.length ≤ 3 →
      (generateTicketGo rands exclude grids).length ≤ 3 := by
  induction rands with
  | nil =>
    intro exclude grids h
    exact h
  | cons ra rest ih =>
    intro exclude grids h
    simp only [generateTicketGo]
    by_cases h3 : grids.length < 3
    · rw [if_pos h3]
      cases hg : generateUniqueGrid exclude ra with
      | none => exact ih exclude grids h
      | some g =>
        apply ih
        rw [List.length_append]
        simp only [List.length_cons, List.length_nil]
        omega
    · rw [if_neg h3]
      exact h

/-- C9: per-grid generation fails (returns null) as soon as some column's
band minus the exclusions holds fewer numbers than the column needs, instead
of retrying forever; the ticket loop never returns more than 3 grids and
consumes at most the 50-attempt budget; and under an adversarial randomness
the budget is exhausted and the ticket comes back with fewer than 3 grids
(here zero) instead of hanging. -/
theorem generateTicket_budget (exclude : List Nat) (rand : GridRand)
    (rands : List GridRand) (counts : List Nat) :
    (bumpCounts (List.replicate 9 1) 6 rand.bumps = some counts →
      (∃ c, c < 9 ∧ ((bandList c).filter (fun n => !(exclude.contains n))).length <
        counts.getD c 0) →
      generateUniqueGrid exclude rand = none) ∧
    (generateTicket rands).grids.length ≤ 3 ∧
    generateTicket rands = generateTicket (rands.take 50) ∧
    (generateTicket (List.replicate 50 failGridRand)).grids.length = 0 := by
  refine ⟨?_, ?_, ?_, ?_⟩
  · intro hbump hex
    rcases hex with ⟨c, hc, hshort⟩
    unfold generateUniqueGrid
    rw [hbump]
    dsimp only
    have hnone : collectCols (pickOneColUnique exclude rand.colShuf counts)
        (List.range 9) = none := by
      cases hcols : collectCols (pickOneColUnique exclude rand.colShuf counts)
          (List.range 9) with
      | none => rfl
      | some nums =>
        exfalso
        have hspec := (collectCols_spec _ _ _ hcols).2 c (by simpa using hc)
        rw [getD_range 9 c hc] at hspec
        dsimp only [pickOneColUnique] at hspec
        rw [if_pos hshort] at hspec
        exact absurd hspec (by simp)
    rw [hnone]
  · exact generateTicketGo_le (rands.take 50) [] [] (by simp)
  · show LotoTicket.mk _ = LotoTicket.mk _
    rw [List.take_take, Nat.min_self]
  · rfl

/-- C9 witness: with all of column 0's band (1..9) excluded and a count
vector demanding 3 numbers there, generateUniqueGrid returns null. -/
theorem generateTicket_budget_witness :
    bumpCounts (List.replicate 9 1) 6 sampleGridRand.bumps =
      some [3, 3, 3, 1, 1, 1, 1, 1, 1] ∧
    ((bandList 0).filter (fun n => !((List.range' 1 9).contains n))).length <
      [3, 3, 3, 1, 1, 1, 1, 1, 1].getD 0 0 ∧
    generateUniqueGrid (List.range' 1 9) sampleGridRand = none :=
  ⟨by rfl, by decide,
    (generateTicket_budget (List.range' 1 9) sampleGridRand []
        [3, 3, 3, 1, 1, 1, 1, 1, 1]).1
      (by rfl) ⟨0, by decide, by decide⟩⟩

end GanhHatLoto
